import Mathlib

/-!
# tracker_ui.js : readiness-gated periodic refresh

A shallow embedding of `javascript/tracker_ui.js`.  The script keeps one
closure variable, `refreshInterval`, and talks to the browser through five
calls: `gradioApp().querySelector`, `setTimeout`, `setInterval`,
`clearInterval` and `click`.  The browser side (the table of active timers,
the clock, the UI tree) is modelled explicitly, and every one of those five
calls is recorded, with the time at which it was made, in a log.
-/

namespace TrackerUI

/-! ## Host side: UI tree, timers, log -/

/-- The two selectors the script passes to `querySelector`:
`"#tab_job_tracker"` and `"#tracker_table_refresh_btn"`. -/
inductive Selector
  | tab_job_tracker
  | tracker_table_refresh_btn
  deriving DecidableEq, Repr

/-- What the script can observe of the UI tree: whether `gradioApp()` returns
a root at all, and whether the target region and the control are in it. -/
structure Host where
  root : Bool
  tab : Bool
  btn : Bool
  deriving DecidableEq, Repr

/-- The only error the script can raise by itself: a property access on a
falsy value. -/
inductive JsError
  | typeError
  deriving DecidableEq, Repr

/-- Which callback a timer runs.  Every `setTimeout` of the script passes
`checkAndStart`; every `setInterval` passes the anonymous tick callback. -/
inductive TimerKind
  | timeout
  | interval (period : Nat)
  deriving DecidableEq, Repr

/-- An entry of the browser's table of active timers. -/
structure Timer where
  id : Nat
  kind : TimerKind
  due : Nat
  deriving DecidableEq, Repr

/-- A call the script made to the browser. -/
inductive Effect
  | querySelector (sel : Selector) (found : Bool)
  | setTimeout (id : Nat) (delay : Nat)
  | setInterval (id : Nat) (delay : Nat)
  | clearInterval (id : Nat)
  | click
  deriving DecidableEq, Repr

/-- The script's variable `refreshInterval` (`none` is `null`) together with
the browser state it acts on: active timers, the next timer handle, the clock
in ms, the UI tree, and the log of calls made so far. -/
structure State where
  refreshInterval : Option Nat
  timers : List Timer
  nextId : Nat
  now : Nat
  host : Host
  log : List (Nat × Effect)
  deriving DecidableEq, Repr

/-- State at script load: `var refreshInterval = null`, no timer, handles
start at 1, clock at 0. -/
def init (h : Host) : State :=
  { refreshInterval := none, timers := [], nextId := 1, now := 0, host := h, log := [] }

/-- Append a call to the log, stamped with the current time. -/
def record (e : Effect) (s : State) : State :=
  { s with log := s.log ++ [(s.now, e)] }

/-- The expression `gradioApp().querySelector(sel)`: when `gradioApp()` is
falsy the member access raises a TypeError, otherwise the result tells
whether an element matched. -/
def querySelector (h : Host) (sel : Selector) : Except JsError Bool :=
  if h.root then
    match sel with
    | .tab_job_tracker => .ok h.tab
    | .tracker_table_refresh_btn => .ok h.btn
  else .error .typeError

/-- The logged form of `querySelector`. -/
def query (sel : Selector) (s : State) : Except JsError (Bool × State) :=
  match querySelector s.host sel with
  | .ok found => .ok (found, record (.querySelector sel found) s)
  | .error e => .error e

/-- Browser `clearInterval(id)`: drop the entry with that handle from the
table of active timers. -/
def clearInterval (id : Nat) (s : State) : State :=
  record (.clearInterval id) { s with timers := s.timers.filter (fun t => t.id != id) }

/-- Browser `setInterval(cb, period)`: a fresh handle, first due one period
from now. -/
def setInterval (period : Nat) (s : State) : Nat × State :=
  (s.nextId,
    record (.setInterval s.nextId period)
      { s with
        timers := s.timers ++ [{ id := s.nextId, kind := .interval period, due := s.now + period }],
        nextId := s.nextId + 1 })

/-- Browser `setTimeout(checkAndStart, delay)`. -/
def setTimeout (delay : Nat) (s : State) : Nat × State :=
  (s.nextId,
    record (.setTimeout s.nextId delay)
      { s with
        timers := s.timers ++ [{ id := s.nextId, kind := .timeout, due := s.now + delay }],
        nextId := s.nextId + 1 })

/-- The method `refreshBtn.click()`. -/
def click (s : State) : State :=
  record .click s

/-- JavaScript truthiness of `refreshInterval`: `null` and `0` are falsy. -/
def truthy : Option Nat → Bool
  | none => false
  | some h => h != 0

/-! ## The script -/

/-- Source `startAutoRefresh`:
`if (refreshInterval) clearInterval(refreshInterval);`
`refreshInterval = setInterval(<tick>, 5000);` -/
def startAutoRefresh (s : State) : State :=
  let s1 :=
    match s.refreshInterval with
    | some h => if truthy (some h) then clearInterval h s else s
    | none => s
  let r := setInterval 5000 s1
  { r.2 with refreshInterval := some r.1 }

/-- The anonymous callback passed to `setInterval`:
`var refreshBtn = gradioApp().querySelector("#tracker_table_refresh_btn");`
`if (refreshBtn) refreshBtn.click();` -/
def intervalCallback (s : State) : Except JsError State :=
  match query .tracker_table_refresh_btn s with
  | .error e => .error e
  | .ok (refreshBtn, s1) => if refreshBtn then .ok (click s1) else .ok s1

/-- Source `checkAndStart`:
`var trackerTab = gradioApp().querySelector("#tab_job_tracker");`
`if (trackerTab) startAutoRefresh(); else setTimeout(checkAndStart, 1000);` -/
def checkAndStart (s : State) : Except JsError State :=
  match query .tab_job_tracker s with
  | .error e => .error e
  | .ok (trackerTab, s1) =>
    if trackerTab then .ok (startAutoRefresh s1) else .ok (setTimeout 1000 s1).2

/-- The `DOMContentLoaded` listener: `setTimeout(checkAndStart, 2000)`. -/
def onDOMContentLoaded (s : State) : Except JsError State :=
  .ok (setTimeout 2000 s).2

/-- The callback handed to `onUiLoaded`: `checkAndStart()`. -/
def onUiLoaded (s : State) : Except JsError State :=
  checkAndStart s

/-! ## Event loop -/

/-- What the browser can do to the script. -/
inductive Event
  | domContentLoaded
  | uiLoaded
  | fire (id : Nat)
  | advance (d : Nat)
  | setHost (h : Host)
  deriving DecidableEq, Repr

/-- State after a callback returned or raised.  Both raising callbacks raise
in their first statement, before any call to the browser, so the state at the
raise is the state at entry; the browser reports the error and goes on. -/
def settle (s : State) (r : Except JsError State) : State :=
  match r with
  | .ok s' => s'
  | .error _ => s

/-- The entry `u` of the timer table after the timer with handle `id` ran its
callback at time `now`: a repeating timer is due again one period later. -/
def Timer.rearm (id now : Nat) (u : Timer) : Timer :=
  match u.kind with
  | .interval p => if u.id == id then { u with due := now + p } else u
  | .timeout => u

/-- Re-arm the repeating timer `id` one period after the current time. -/
def rearm (id : Nat) (s : State) : State :=
  { s with timers := s.timers.map (Timer.rearm id s.now) }

/-- The clock moves on by `d` ms. -/
def advance (d : Nat) (s : State) : State :=
  { s with now := s.now + d }

/-- One step of the event loop; `none` when the event is not enabled (no such
timer, or the timer is not due yet).  A timeout leaves the table when it
fires; an interval runs its callback and is re-armed, also when the callback
raised. -/
def step (e : Event) (s : State) : Option State :=
  match e with
  | .domContentLoaded => some (settle s (onDOMContentLoaded s))
  | .uiLoaded => some (settle s (onUiLoaded s))
  | .advance d => some (advance d s)
  | .setHost h => some { s with host := h }
  | .fire id =>
    match s.timers.find? (fun t => t.id == id) with
    | none => none
    | some t =>
      if t.due ≤ s.now then
        match t.kind with
        | .timeout =>
          let s1 := { s with timers := s.timers.filter (fun u => u.id != id) }
          some (settle s1 (checkAndStart s1))
        | .interval _ => some (rearm id (settle s (intervalCallback s)))
      else none

/-- Run a list of events in order. -/
def exec : List Event → State → Option State
  | [], s => some s
  | e :: es, s => (step e s).bind (exec es)

/-- States the system can be in. -/
inductive Reachable : State → Prop
  | start (h : Host) : Reachable (init h)
  | next {s s' : State} (e : Event) : Reachable s → step e s = some s' → Reachable s'

/-! ## Observations -/

/-- Whether a timer is an interval timer. -/
def Timer.isInterval (t : Timer) : Bool :=
  match t.kind with
  | .interval _ => true
  | .timeout => false

/-- Live interval timers. -/
def liveIntervals (s : State) : List Timer :=
  s.timers.filter Timer.isInterval

/-- Pending poll checks (timeouts of `checkAndStart`). -/
def pendingChecks (s : State) : List Timer :=
  s.timers.filter (fun t => !t.isInterval)

/-- Whether a logged call is a `setInterval`. -/
def Effect.isSetInterval : Effect → Bool
  | .setInterval _ _ => true
  | _ => false

/-- Number of `setInterval` calls made so far, which is the number of runs of
`startAutoRefresh`: it is the only caller and calls it once. -/
def starts (s : State) : Nat :=
  s.log.countP (fun e => e.2.isSetInterval)

/-- Number of simulated clicks so far. -/
def clicks (s : State) : Nat :=
  s.log.countP (fun e => e.2 == Effect.click)

/-! ## Timed scheduler -/

/-- The timer the browser fires next: the earliest due, the older one first
among equals. -/
def earliest : List Timer → Option Timer
  | [] => none
  | t :: ts =>
    match earliest ts with
    | none => some t
    | some u => if u.due < t.due then some u else some t

/-- Fire the next timer on time, with the UI tree as given for that firing. -/
def runNextWith (h : Host) (s : State) : Option State :=
  match earliest s.timers with
  | none => none
  | some t => exec [.advance (t.due - s.now), .setHost h, .fire t.id] s

/-- Fire the next timer on time, the UI tree being a function of time. -/
def runNext (tl : Nat → Host) (s : State) : Option State :=
  match earliest s.timers with
  | none => none
  | some t => runNextWith (tl (max s.now t.due)) s

/-- Fire the next `n` timers, each on time. -/
def runFor (tl : Nat → Host) : Nat → State → Option State
  | 0, s => some s
  | n + 1, s => (runNext tl s).bind (runFor tl n)

/-! ## Definitions used in the statements -/

/-- Every handle in use is positive and below the next handle, handles are
pairwise distinct, and the live interval timers are exactly the one whose
handle is stored in `refreshInterval`, if any; `refreshInterval` is `null`
exactly as long as `startAutoRefresh` has not run. -/
structure Inv (s : State) : Prop where
  pos : ∀ t ∈ s.timers, 0 < t.id
  fresh : ∀ t ∈ s.timers, t.id < s.nextId
  nodup : s.timers.Pairwise (fun a b => a.id ≠ b.id)
  stored : match s.refreshInterval with
    | none => liveIntervals s = [] ∧ starts s = 0
    | some h =>
      (∃ due, liveIntervals s = [{ id := h, kind := .interval 5000, due := due }]) ∧ 0 < starts s
  nextPos : 0 < s.nextId

/-- The log entries a run of `startAutoRefresh` adds. -/
def startLog (s : State) : List (Nat × Effect) :=
  (match s.refreshInterval with
    | some h => [(s.now, Effect.clearInterval h)]
    | none => []) ++ [(s.now, Effect.setInterval s.nextId 5000)]

/-- The calls a tick makes at time `t` with UI tree `h`. -/
def tickLog (t : Nat) (h : Host) : List (Nat × Effect) :=
  if h.root then
    (t, Effect.querySelector .tracker_table_refresh_btn h.btn) ::
      (if h.btn then [(t, Effect.click)] else [])
  else []

/-- Fire the live interval timer on time (or at once when it is overdue), with
the UI tree `h` in place. -/
def tickWith (h : Host) (s : State) : Option State :=
  match liveIntervals s with
  | t :: _ => exec [.advance (t.due - s.now), .setHost h, .fire t.id] s
  | [] => none

/-- Successive ticks of the live interval timer, one per UI tree in the list. -/
def ticksWith : List Host → State → Option State
  | [], s => some s
  | h :: hs, s => (tickWith h s).bind (ticksWith hs)

/-- The calls made by successive ticks, the first at time `t`, 5000 ms apart. -/
def ticksLog (t : Nat) : List Host → List (Nat × Effect)
  | [] => []
  | h :: hs => tickLog t h ++ ticksLog (t + 5000) hs

/-- When the live timer is due after `n` ticks, the first of which ran at
time `t0`. -/
def dueAfter (due t0 n : Nat) : Nat :=
  if n = 0 then due else t0 + 5000 * n

/-- A UI tree with everything in place. -/
def hostReady : Host := { root := true, tab := true, btn := true }

/-- A UI tree whose root exists but holds neither the region nor the control. -/
def hostEmpty : Host := { root := true, tab := false, btn := false }

/-- The UI tree before construction: `gradioApp()` returns a falsy value. -/
def hostAbsent : Host := { root := false, tab := false, btn := false }

/-- The state right after the UI-ready callback found the region at time 0. -/
def startedState : State :=
  { refreshInterval := some 1,
    timers := [{ id := 1, kind := .interval 5000, due := 5000 }],
    nextId := 2, now := 0, host := hostReady,
    log := [(0, .querySelector .tab_job_tracker true), (0, .setInterval 1 5000)] }

/-- A handle that was given out and is no longer in the timer table. -/
def Dead (id : Nat) (s : State) : Prop :=
  id < s.nextId ∧ ∀ t ∈ s.timers, t.id ≠ id

/-- The calls made by `m` further runs of `startAutoRefresh` at time `now`,
after a run that created the timer `n0`: each cancels the timer of the run
before it and creates the next one. -/
def restartLog (now n0 : Nat) : Nat → List (Nat × Effect)
  | 0 => []
  | m + 1 => restartLog now n0 m ++
      [(now, Effect.clearInterval (n0 + m)), (now, Effect.setInterval (n0 + m + 1) 5000)]

/-- Fire the next timers on time, one per UI tree in the list. -/
def runWith : List Host → State → Option State
  | [], s => some s
  | h :: hs, s => (runNextWith h s).bind (runWith hs)

/-- The calls made by `j` failed checks 1000 ms apart, the first at time `t`
and scheduling the re-check with handle `n`. -/
def pollLog (t n : Nat) : Nat → List (Nat × Effect)
  | 0 => []
  | j + 1 =>
    (t, Effect.querySelector .tab_job_tracker false) :: (t, Effect.setTimeout n 1000) ::
      pollLog (t + 1000) (n + 1) j

/-- A state in which nothing has started and one check is pending. -/
def polling (n d t0 : Nat) (h : Host) (l : List (Nat × Effect)) : State :=
  { refreshInterval := none, timers := [{ id := n, kind := .timeout, due := d }],
    nextId := n + 1, now := t0, host := h, log := l }

/-- A state in which the trigger was started at time `t` by the check that
created the timer `n`, and nothing else is pending. -/
def triggered (n t : Nat) (h : Host) (l : List (Nat × Effect)) : State :=
  { refreshInterval := some n, timers := [{ id := n, kind := .interval 5000, due := t + 5000 }],
    nextId := n + 1, now := t, host := h,
    log := l ++ [(t, .querySelector .tab_job_tracker true), (t, .setInterval n 5000)] }

/-- Whether a logged call is a `setTimeout`. -/
def Effect.isSetTimeout : Effect → Bool
  | .setTimeout _ _ => true
  | _ => false

/-- Number of checks so far that did not find the target region. -/
def failedChecks (s : State) : Nat :=
  s.log.countP (fun e => e.2 == Effect.querySelector .tab_job_tracker false)

/-- Number of `setTimeout` calls so far. -/
def scheduled (s : State) : Nat :=
  s.log.countP (fun e => e.2.isSetTimeout)

/-- The UI tree over time when the target region is absent before time `a` and
present from `a` on. -/
def regionFrom (a : Nat) (btn : Bool) (t : Nat) : Host :=
  { root := true, tab := decide (a ≤ t), btn := btn }

/-- Whether an event is one of the two entry signals. -/
def Event.isSignal : Event → Bool
  | .domContentLoaded => true
  | .uiLoaded => true
  | _ => false

/-- Number of entry signals in a run. -/
def signals (evs : List Event) : Nat :=
  evs.countP Event.isSignal

/-- Both signals were delivered at time 0 with the region absent, and the check
of the UI-ready chain has fired once, at time 1000. -/
def twoLoopsState : State :=
  { refreshInterval := none,
    timers := [{ id := 2, kind := .timeout, due := 2000 },
      { id := 3, kind := .timeout, due := 2000 }],
    nextId := 4, now := 1000, host := hostEmpty,
    log := [(0, .querySelector .tab_job_tracker false), (0, .setTimeout 1 1000),
      (0, .setTimeout 2 2000),
      (1000, .querySelector .tab_job_tracker false), (1000, .setTimeout 3 1000)] }

/-- Whether an event leaves `gradioApp()` with a root to return. -/
def Event.rootOk : Event → Bool
  | .setHost h => h.root
  | _ => true

/-- Polling is under way or the trigger has been started. -/
def Armed (s : State) : Prop :=
  pendingChecks s ≠ [] ∨ s.refreshInterval ≠ none

/-- What the dual-entry property compares end states by: the number of live
interval timers, whether their handles are exactly the stored one, and the
number of pending checks. -/
def endView (s : State) : Nat × Bool × Nat :=
  ((liveIntervals s).length,
    decide ((liveIntervals s).map Timer.id = s.refreshInterval.toList),
    (pendingChecks s).length)

/-- Both signals were delivered at time 0, `DOMContentLoaded` first, with the
target region absent. -/
def bothSignalled : State :=
  { refreshInterval := none,
    timers := [{ id := 1, kind := .timeout, due := 2000 },
      { id := 2, kind := .timeout, due := 1000 }],
    nextId := 3, now := 0, host := hostEmpty,
    log := [(0, .setTimeout 1 2000), (0, .querySelector .tab_job_tracker false),
      (0, .setTimeout 2 1000)] }

/-- Sum of `f` over a list of timers. -/
def sumBy (f : Timer → Nat) : List Timer → Nat
  | [] => 0
  | t :: ts => f t + sumBy f ts

/-- A bound on the number of times a chain whose check is due at `x` still
fires when the region is present from time `a` on. -/
def remaining (a x : Nat) : Nat :=
  (a - x + 999) / 1000 + 1

/-- A bound on the number of check firings still to come. -/
def pollBudget (a : Nat) (s : State) : Nat :=
  sumBy (fun c => remaining a c.due) (pendingChecks s)

/-- A bound (times 5000) on the number of ticks before the next check fires. -/
def tickBudget (s : State) : Nat :=
  match liveIntervals s with
  | t :: _ => sumBy Timer.due (pendingChecks s) + 5000 - t.due
  | [] => 0

/-- The trigger was started at time 0, the clock is at 5000 and the UI tree has
been torn down since: `gradioApp()` returns a falsy value. -/
def rootlessStarted : State :=
  { refreshInterval := some 1,
    timers := [{ id := 1, kind := .interval 5000, due := 5000 }],
    nextId := 2, now := 5000, host := hostAbsent,
    log := [(0, .querySelector .tab_job_tracker true), (0, .setInterval 1 5000)] }

/-- The UI tree over time when the whole tree, target region and control
included, is built at time `a`: before `a`, `gradioApp()` is falsy. -/
def treeFrom (a t : Nat) : Host :=
  if a ≤ t then hostReady else hostAbsent

/-! ## Invariant, lemmas and the properties of the script -/

theorem inv_init (h : Host) : Inv (init h) := by
  constructor <;> simp [init, liveIntervals, starts]

theorem mem_live {s : State} {t : Timer} :
    t ∈ liveIntervals s ↔ t ∈ s.timers ∧ t.isInterval = true := by
  simp [liveIntervals]

theorem mem_pending {s : State} {t : Timer} :
    t ∈ pendingChecks s ↔ t ∈ s.timers ∧ t.isInterval = false := by
  simp [pendingChecks]

theorem ne_symm_id : Symmetric (fun a b : Timer => a.id ≠ b.id) :=
  fun _ _ h => Ne.symm h

/-- The timer whose handle is stored is in the table. -/
theorem stored_mem {s : State} (hs : Inv s) {h : Nat} (hr : s.refreshInterval = some h) :
    ∃ due, liveIntervals s = [{ id := h, kind := .interval 5000, due := due }] ∧
      ({ id := h, kind := .interval 5000, due := due } : Timer) ∈ s.timers := by
  have hst := hs.stored
  rw [hr] at hst
  obtain ⟨⟨due, hl⟩, -⟩ := hst
  refine ⟨due, hl, ?_⟩
  have : ({ id := h, kind := .interval 5000, due := due } : Timer) ∈ liveIntervals s := by
    simp [hl]
  exact (mem_live.1 this).1

/-- A pending check never carries the stored handle. -/
theorem pending_id_ne {s : State} (hs : Inv s) {h : Nat} (hr : s.refreshInterval = some h)
    {t : Timer} (ht : t ∈ s.timers) (hi : t.isInterval = false) : t.id ≠ h := by
  obtain ⟨due, -, hu⟩ := stored_mem hs hr
  have hne : t ≠ { id := h, kind := .interval 5000, due := due } := by
    intro he
    rw [he] at hi
    simp [Timer.isInterval] at hi
  exact hs.nodup.forall ne_symm_id ht hu hne

/-- Under the invariant, cancelling the stored handle removes exactly the
interval timers. -/
theorem filter_stored {s : State} (hs : Inv s) {h : Nat} (hr : s.refreshInterval = some h) :
    s.timers.filter (fun t => t.id != h) = pendingChecks s := by
  obtain ⟨due, hl, -⟩ := stored_mem hs hr
  unfold pendingChecks
  apply List.filter_congr
  intro t ht
  cases hi : t.isInterval
  · simp [pending_id_ne hs hr ht hi]
  · have : t ∈ liveIntervals s := mem_live.2 ⟨ht, hi⟩
    rw [hl] at this
    simp at this
    subst this
    simp

theorem stored_pos {s : State} (hs : Inv s) {h : Nat} (hr : s.refreshInterval = some h) :
    truthy (some h) = true := by
  obtain ⟨due, -, hu⟩ := stored_mem hs hr
  have hp : 0 < h := hs.pos _ hu
  simp [truthy]
  omega

theorem pending_of_none {s : State} (hs : Inv s) (hr : s.refreshInterval = none) :
    pendingChecks s = s.timers := by
  have hst := hs.stored
  rw [hr] at hst
  unfold pendingChecks
  rw [List.filter_eq_self]
  intro t ht
  cases hi : t.isInterval
  · rfl
  · have : t ∈ liveIntervals s := mem_live.2 ⟨ht, hi⟩
    rw [hst.1] at this
    simp at this

/-- What `startAutoRefresh` does to a state of the system: every interval
timer is gone, one new interval timer is due 5000 ms from now, and its handle
is stored. -/
theorem startAutoRefresh_eq {s : State} (hs : Inv s) :
    startAutoRefresh s =
      { s with
        refreshInterval := some s.nextId,
        timers := pendingChecks s ++ [{ id := s.nextId, kind := .interval 5000, due := s.now + 5000 }],
        nextId := s.nextId + 1,
        log := s.log ++ startLog s } := by
  cases hr : s.refreshInterval with
  | none =>
    simp [startAutoRefresh, hr, setInterval, record, startLog, pending_of_none hs hr]
  | some h =>
    have ht := stored_pos hs hr
    simp [startAutoRefresh, hr, ht, setInterval, record, startLog, clearInterval,
      filter_stored hs hr]

theorem live_start {s : State} (hs : Inv s) :
    liveIntervals (startAutoRefresh s) =
      [{ id := s.nextId, kind := .interval 5000, due := s.now + 5000 }] := by
  rw [startAutoRefresh_eq hs]
  simp [liveIntervals, pendingChecks, List.filter_append, List.filter_filter, Timer.isInterval]

theorem pending_start {s : State} (hs : Inv s) :
    pendingChecks (startAutoRefresh s) = pendingChecks s := by
  rw [startAutoRefresh_eq hs]
  simp [pendingChecks, List.filter_append, List.filter_filter, Timer.isInterval]

theorem starts_start {s : State} (hs : Inv s) :
    starts (startAutoRefresh s) = starts s + 1 := by
  rw [startAutoRefresh_eq hs]
  cases hr : s.refreshInterval <;>
    simp [starts, startLog, hr, List.countP_append, Effect.isSetInterval]

theorem inv_start {s : State} (hs : Inv s) : Inv (startAutoRefresh s) := by
  have hl := live_start hs
  have hc := starts_start hs
  rw [startAutoRefresh_eq hs] at hl hc ⊢
  have hnp := hs.nextPos
  constructor
  · intro t ht
    simp only [List.mem_append, List.mem_singleton] at ht
    rcases ht with ht | rfl
    · exact hs.pos t (mem_pending.1 ht).1
    · exact hnp
  · intro t ht
    simp only [List.mem_append, List.mem_singleton] at ht
    rcases ht with ht | rfl
    · exact Nat.lt_succ_of_lt (hs.fresh t (mem_pending.1 ht).1)
    · exact Nat.lt_succ_self _
  · simp only
    rw [List.pairwise_append]
    refine ⟨hs.nodup.filter _, List.pairwise_singleton _ _, ?_⟩
    intro a ha b hb
    simp only [List.mem_singleton] at hb
    subst hb
    exact Nat.ne_of_lt (hs.fresh a (mem_pending.1 ha).1)
  · simp only
    exact ⟨⟨_, hl⟩, by omega⟩
  · simp only
    omega

/-- Scheduling a check keeps the invariant. -/
theorem inv_setTimeout {s : State} (hs : Inv s) (d : Nat) : Inv (setTimeout d s).2 := by
  have hnp := hs.nextPos
  have hst := hs.stored
  constructor
  · intro t ht
    simp only [setTimeout, record, List.mem_append, List.mem_singleton] at ht
    rcases ht with ht | rfl
    · exact hs.pos t ht
    · exact hnp
  · intro t ht
    simp only [setTimeout, record, List.mem_append, List.mem_singleton] at ht
    rcases ht with ht | rfl
    · exact Nat.lt_succ_of_lt (hs.fresh t ht)
    · exact Nat.lt_succ_self _
  · simp only [setTimeout, record]
    rw [List.pairwise_append]
    refine ⟨hs.nodup, List.pairwise_singleton _ _, ?_⟩
    intro a ha b hb
    simp only [List.mem_singleton] at hb
    subst hb
    exact Nat.ne_of_lt (hs.fresh a ha)
  · have h1 : liveIntervals (setTimeout d s).2 = liveIntervals s := by
      simp [liveIntervals, setTimeout, record, List.filter_append, Timer.isInterval]
    have h2 : starts (setTimeout d s).2 = starts s := by
      simp [starts, setTimeout, record, List.countP_append, Effect.isSetInterval]
    have h3 : (setTimeout d s).2.refreshInterval = s.refreshInterval := rfl
    rw [h3, h1, h2]
    exact hst
  · simp only [setTimeout, record]
    omega

/-- The invariant only looks at the timers, the handles and the number of
starts. -/
theorem inv_congr {s s' : State} (hs : Inv s) (h1 : s'.timers = s.timers)
    (h2 : s'.nextId = s.nextId) (h3 : s'.refreshInterval = s.refreshInterval)
    (h4 : starts s' = starts s) : Inv s' := by
  have hl : liveIntervals s' = liveIntervals s := by simp [liveIntervals, h1]
  constructor
  · rw [h1]; exact hs.pos
  · rw [h1, h2]; exact hs.fresh
  · rw [h1]; exact hs.nodup
  · rw [h3, hl, h4]; exact hs.stored
  · rw [h2]; exact hs.nextPos

theorem inv_query {s s1 : State} {sel : Selector} {b : Bool} (hs : Inv s)
    (h : query sel s = .ok (b, s1)) : Inv s1 := by
  unfold query at h
  split at h
  · simp only [Except.ok.injEq, Prod.mk.injEq] at h
    obtain ⟨-, rfl⟩ := h
    exact inv_congr hs rfl rfl rfl
      (by simp [starts, record, List.countP_append, Effect.isSetInterval])
  · simp at h

theorem inv_click {s : State} (hs : Inv s) : Inv (click s) :=
  inv_congr hs rfl rfl rfl
    (by simp [starts, click, record, List.countP_append, Effect.isSetInterval])

theorem inv_checkAndStart {s : State} (hs : Inv s) : Inv (settle s (checkAndStart s)) := by
  unfold checkAndStart
  cases hq : query .tab_job_tracker s with
  | error e => simpa [settle] using hs
  | ok r =>
    obtain ⟨b, s1⟩ := r
    have h1 := inv_query hs hq
    cases b
    · simpa [settle] using inv_setTimeout h1 1000
    · simpa [settle] using inv_start h1

theorem inv_intervalCallback {s : State} (hs : Inv s) :
    Inv (settle s (intervalCallback s)) := by
  unfold intervalCallback
  cases hq : query .tracker_table_refresh_btn s with
  | error e => simpa [settle] using hs
  | ok r =>
    obtain ⟨b, s1⟩ := r
    have h1 := inv_query hs hq
    cases b
    · simpa [settle] using h1
    · simpa [settle] using inv_click h1

/-- The timer a `fire` event refers to. -/
theorem find_spec {s : State} {id : Nat} {t : Timer}
    (h : s.timers.find? (fun t => t.id == id) = some t) : t ∈ s.timers ∧ t.id = id := by
  refine ⟨List.mem_of_find?_eq_some h, ?_⟩
  have := List.find?_some h
  simpa using this

/-- Taking a fired timeout out of the table keeps the invariant. -/
theorem inv_remove {s : State} (hs : Inv s) {t : Timer} (ht : t ∈ s.timers)
    (hk : t.isInterval = false) :
    Inv { s with timers := s.timers.filter (fun u => u.id != t.id) } := by
  have hst := hs.stored
  constructor
  · intro u hu
    exact hs.pos u (List.mem_filter.1 hu).1
  · intro u hu
    exact hs.fresh u (List.mem_filter.1 hu).1
  · exact hs.nodup.filter _
  · have hl : liveIntervals { s with timers := s.timers.filter (fun u => u.id != t.id) } =
        (liveIntervals s).filter (fun u => u.id != t.id) := by
      simp only [liveIntervals, List.filter_filter]
      apply List.filter_congr
      intro u _
      exact Bool.and_comm _ _
    have hc : starts { s with timers := s.timers.filter (fun u => u.id != t.id) } = starts s :=
      rfl
    rw [hl, hc]
    cases hr : s.refreshInterval with
    | none =>
      rw [hr] at hst
      simp only
      rw [hst.1]
      exact ⟨rfl, hst.2⟩
    | some h =>
      rw [hr] at hst
      simp only
      obtain ⟨⟨due, hd⟩, hp⟩ := hst
      have hne := pending_id_ne hs hr ht hk
      refine ⟨⟨due, ?_⟩, hp⟩
      rw [hd]
      simp [Ne.symm hne]
  · exact hs.nextPos

theorem Timer.rearm_id (id now : Nat) (u : Timer) : (u.rearm id now).id = u.id := by
  unfold Timer.rearm
  split
  · split <;> rfl
  · rfl

theorem Timer.rearm_isInterval (id now : Nat) (u : Timer) :
    (u.rearm id now).isInterval = u.isInterval := by
  unfold Timer.rearm Timer.isInterval
  cases hk : u.kind with
  | timeout => simp [hk]
  | interval p =>
    by_cases hi : u.id = id <;> simp [hk, hi]

/-- Re-arming a timer keeps the invariant. -/
theorem inv_rearm {s : State} (hs : Inv s) (id : Nat) : Inv (rearm id s) := by
  have hst := hs.stored
  constructor
  · intro t ht
    simp only [rearm, List.mem_map] at ht
    obtain ⟨u, hu, rfl⟩ := ht
    rw [Timer.rearm_id]
    exact hs.pos u hu
  · intro t ht
    simp only [rearm, List.mem_map] at ht
    obtain ⟨u, hu, rfl⟩ := ht
    rw [Timer.rearm_id]
    exact hs.fresh u hu
  · simp only [rearm]
    rw [List.pairwise_map]
    refine hs.nodup.imp ?_
    intro a b hab
    rw [Timer.rearm_id, Timer.rearm_id]
    exact hab
  · have hl : liveIntervals (rearm id s) = (liveIntervals s).map (Timer.rearm id s.now) := by
      simp only [liveIntervals, rearm, List.filter_map]
      congr 1
      apply List.filter_congr
      intro u _
      simp [Timer.rearm_isInterval]
    have hc : starts (rearm id s) = starts s := rfl
    have hr : (rearm id s).refreshInterval = s.refreshInterval := rfl
    rw [hl, hc, hr]
    cases hri : s.refreshInterval with
    | none =>
      rw [hri] at hst
      simp only
      rw [hst.1]
      exact ⟨rfl, hst.2⟩
    | some h =>
      rw [hri] at hst
      simp only
      obtain ⟨⟨due, hd⟩, hp⟩ := hst
      refine ⟨?_, hp⟩
      rw [hd]
      by_cases hh : h = id
      · exact ⟨s.now + 5000, by simp [Timer.rearm, hh]⟩
      · exact ⟨due, by simp [Timer.rearm, hh]⟩
  · exact hs.nextPos

/-- Every step of the event loop keeps the invariant. -/
theorem inv_step {s s' : State} (hs : Inv s) {e : Event} (h : step e s = some s') : Inv s' := by
  cases e with
  | domContentLoaded =>
    simp only [step, Option.some.injEq] at h
    subst h
    exact inv_setTimeout hs 2000
  | uiLoaded =>
    simp only [step, Option.some.injEq] at h
    subst h
    exact inv_checkAndStart hs
  | advance d =>
    simp only [step, Option.some.injEq] at h
    subst h
    exact inv_congr hs rfl rfl rfl rfl
  | setHost h0 =>
    simp only [step, Option.some.injEq] at h
    subst h
    exact inv_congr hs rfl rfl rfl rfl
  | fire id =>
    simp only [step] at h
    cases hf : s.timers.find? (fun t => t.id == id) with
    | none => simp [hf] at h
    | some t =>
      obtain ⟨hm, rfl⟩ := find_spec hf
      simp only [hf] at h
      split at h
      · cases hk : t.kind with
        | timeout =>
          simp only [hk, Option.some.injEq] at h
          subst h
          exact inv_checkAndStart (inv_remove hs hm (by simp [Timer.isInterval, hk]))
        | interval p =>
          simp only [hk, Option.some.injEq] at h
          subst h
          exact inv_rearm (inv_intervalCallback hs) _
      · simp at h

/-- The invariant holds in every reachable state. -/
theorem reachable_inv {s : State} (h : Reachable s) : Inv s := by
  induction h with
  | start h0 => exact inv_init h0
  | next e _ hstep ih => exact inv_step ih hstep

theorem reachable_exec {s s' : State} (evs : List Event) (h : Reachable s)
    (he : exec evs s = some s') : Reachable s' := by
  induction evs generalizing s with
  | nil =>
    simp only [exec, Option.some.injEq] at he
    subst he
    exact h
  | cons e es ih =>
    simp only [exec] at he
    cases hs1 : step e s with
    | none => simp [hs1] at he
    | some s1 =>
      rw [hs1] at he
      exact ih (Reachable.next e h hs1) he

theorem log_query {s s1 : State} {sel : Selector} {b : Bool}
    (h : query sel s = .ok (b, s1)) :
    s1 = record (.querySelector sel b) s ∧ querySelector s.host sel = .ok b := by
  unfold query at h
  split at h
  · rename_i found hq
    simp only [Except.ok.injEq, Prod.mk.injEq] at h
    obtain ⟨rfl, rfl⟩ := h
    exact ⟨rfl, hq⟩
  · simp at h

theorem log_startAutoRefresh (s : State) :
    ∃ l, (startAutoRefresh s).log = s.log ++ l := by
  unfold startAutoRefresh
  cases hr : s.refreshInterval with
  | none => exact ⟨_, rfl⟩
  | some h =>
    by_cases ht : truthy (some h) = true
    · simp only [ht, if_true]
      exact ⟨[(s.now, Effect.clearInterval h), (s.now, Effect.setInterval s.nextId 5000)],
        by simp [setInterval, clearInterval, record]⟩
    · simp only [ht]
      exact ⟨_, rfl⟩

theorem log_checkAndStart (s : State) :
    ∃ l, (settle s (checkAndStart s)).log = s.log ++ l := by
  unfold checkAndStart
  cases hq : query .tab_job_tracker s with
  | error e => exact ⟨[], by simp [settle]⟩
  | ok r =>
    obtain ⟨b, s1⟩ := r
    obtain ⟨rfl, -⟩ := log_query hq
    cases b
    · exact ⟨_, by simp [settle, setTimeout, record]; rfl⟩
    · obtain ⟨l, hl⟩ := log_startAutoRefresh (record (.querySelector .tab_job_tracker true) s)
      refine ⟨(s.now, Effect.querySelector .tab_job_tracker true) :: l, ?_⟩
      simp only [settle, if_true]
      rw [hl]
      simp [record]

theorem log_intervalCallback (s : State) :
    ∃ l, (settle s (intervalCallback s)).log = s.log ++ l := by
  unfold intervalCallback
  cases hq : query .tracker_table_refresh_btn s with
  | error e => exact ⟨[], by simp [settle]⟩
  | ok r =>
    obtain ⟨b, s1⟩ := r
    obtain ⟨rfl, -⟩ := log_query hq
    cases b
    · exact ⟨_, by simp [settle, record]; rfl⟩
    · exact ⟨_, by simp [settle, click, record, List.append_assoc]; rfl⟩

/-- The log only grows. -/
theorem log_step {s s' : State} {e : Event} (h : step e s = some s') :
    ∃ l, s'.log = s.log ++ l := by
  cases e with
  | domContentLoaded =>
    simp only [step, Option.some.injEq] at h
    subst h
    exact ⟨_, rfl⟩
  | uiLoaded =>
    simp only [step, Option.some.injEq] at h
    subst h
    exact log_checkAndStart s
  | advance d =>
    simp only [step, Option.some.injEq] at h
    subst h
    exact ⟨[], by simp [advance]⟩
  | setHost h0 =>
    simp only [step, Option.some.injEq] at h
    subst h
    exact ⟨[], by simp⟩
  | fire id =>
    simp only [step] at h
    cases hf : s.timers.find? (fun t => t.id == id) with
    | none => simp [hf] at h
    | some t =>
      simp only [hf] at h
      split at h
      · cases hk : t.kind with
        | timeout =>
          simp only [hk, Option.some.injEq] at h
          subst h
          exact log_checkAndStart _
        | interval p =>
          simp only [hk, Option.some.injEq] at h
          subst h
          exact log_intervalCallback s
      · simp at h

theorem starts_step {s s' : State} {e : Event} (h : step e s = some s') :
    starts s ≤ starts s' := by
  obtain ⟨l, hl⟩ := log_step h
  simp [starts, hl, List.countP_append]

/-- In a state of the system the number of live interval timers is 0 before
the first start and 1 after it. -/
theorem live_length {s : State} (hs : Inv s) :
    (liveIntervals s).length = if starts s = 0 then 0 else 1 := by
  have hst := hs.stored
  cases hr : s.refreshInterval with
  | none =>
    rw [hr] at hst
    simp [hst.1, hst.2]
  | some h =>
    rw [hr] at hst
    obtain ⟨⟨due, hd⟩, hp⟩ := hst
    have : starts s ≠ 0 := by omega
    simp [hd, this]

/-- C1: in every state reachable from the initial state there is at most one
live interval timer: none as long as `startAutoRefresh` has not run, and
exactly one, whose handle is the one stored in `refreshInterval`, from then
on, whatever step the system takes next. -/
theorem live_timers_at_most_one (s : State) (h : Reachable s) :
    (liveIntervals s).length ≤ 1 ∧
    (starts s = 0 → (liveIntervals s).length = 0 ∧ s.refreshInterval = none) ∧
    (0 < starts s →
      (liveIntervals s).length = 1 ∧
      (liveIntervals s).map Timer.id = s.refreshInterval.toList ∧
      ∀ e s', step e s = some s' → 0 < starts s' ∧ (liveIntervals s').length = 1) := by
  have hs := reachable_inv h
  have hl := live_length hs
  refine ⟨?_, ?_, ?_⟩
  · rw [hl]; split <;> omega
  · intro h0
    refine ⟨by rw [hl]; simp [h0], ?_⟩
    have hst := hs.stored
    cases hr : s.refreshInterval with
    | none => rfl
    | some x =>
      rw [hr] at hst
      have := hst.2
      omega
  · intro hp
    have hne : starts s ≠ 0 := by omega
    refine ⟨by rw [hl]; simp [hne], ?_, ?_⟩
    · have hst := hs.stored
      cases hr : s.refreshInterval with
      | none =>
        rw [hr] at hst
        have := hst.2
        omega
      | some x =>
        rw [hr] at hst
        obtain ⟨⟨due, hd⟩, -⟩ := hst
        simp [hd]
    · intro e s' he
      have hp' : 0 < starts s' := Nat.lt_of_lt_of_le hp (starts_step he)
      have hne' : starts s' ≠ 0 := by omega
      refine ⟨hp', ?_⟩
      rw [live_length (inv_step hs he)]
      simp [hne']

/-- In a table with pairwise distinct handles, looking a member up by its
handle finds it. -/
theorem find_of_mem {l : List Timer} (hn : l.Pairwise (fun a b => a.id ≠ b.id)) {t : Timer}
    (ht : t ∈ l) : l.find? (fun u => u.id == t.id) = some t := by
  induction l with
  | nil => simp at ht
  | cons a l ih =>
    rw [List.pairwise_cons] at hn
    rcases List.mem_cons.1 ht with rfl | hm
    · simp
    · have : a.id ≠ t.id := hn.1 t hm
      simp [List.find?_cons, this, ih hn.2 hm]

theorem settle_intervalCallback (s : State) :
    settle s (intervalCallback s) = { s with log := s.log ++ tickLog s.now s.host } := by
  unfold intervalCallback query querySelector tickLog
  cases hr : s.host.root <;> cases hb : s.host.btn <;> simp [settle, click, record, hr, hb]

theorem live_rearm (id : Nat) (s : State) :
    liveIntervals (rearm id s) = (liveIntervals s).map (Timer.rearm id s.now) := by
  simp only [liveIntervals, rearm, List.filter_map]
  congr 1
  apply List.filter_congr
  intro u _
  simp [Timer.rearm_isInterval]

theorem pending_rearm (id : Nat) (s : State) :
    pendingChecks (rearm id s) = pendingChecks s := by
  simp only [pendingChecks, rearm, List.filter_map]
  have h1 : List.filter ((fun t => !t.isInterval) ∘ Timer.rearm id s.now) s.timers =
      List.filter (fun t => !t.isInterval) s.timers := by
    apply List.filter_congr
    intro u _
    simp [Timer.rearm_isInterval]
  rw [h1]
  have h2 : ∀ u ∈ List.filter (fun t => !t.isInterval) s.timers, Timer.rearm id s.now u = u := by
    intro u hu
    have := (List.mem_filter.1 hu).2
    unfold Timer.rearm
    unfold Timer.isInterval at this
    split
    · rename_i p hk
      simp [hk] at this
    · rfl
  conv_rhs => rw [← List.map_id (List.filter (fun t => !t.isInterval) s.timers)]
  exact List.map_congr_left h2

/-- A live interval timer is the only one, its handle is the stored one, and
its period is 5000 ms. -/
theorem live_eq {s : State} (hs : Inv s) {t : Timer} (ht : t ∈ liveIntervals s) :
    liveIntervals s = [t] ∧ s.refreshInterval = some t.id ∧ t.kind = .interval 5000 := by
  have hst := hs.stored
  cases hr : s.refreshInterval with
  | none =>
    rw [hr] at hst
    rw [hst.1] at ht
    simp at ht
  | some h =>
    rw [hr] at hst
    obtain ⟨⟨due, hl⟩, -⟩ := hst
    rw [hl] at ht
    simp only [List.mem_singleton] at ht
    subst ht
    exact ⟨hl, rfl, rfl⟩

/-- Firing the live interval timer, in a state of the system where it is due:
the callback runs, and the same timer is due again 5000 ms later. -/
theorem fire_live {s : State} (hs : Inv s) {t : Timer} (ht : t ∈ liveIntervals s)
    (hd : t.due ≤ s.now) :
    step (.fire t.id) s =
      some (rearm t.id { s with log := s.log ++ tickLog s.now s.host }) ∧
    liveIntervals (rearm t.id { s with log := s.log ++ tickLog s.now s.host }) =
      [{ t with due := s.now + 5000 }] := by
  have hm := mem_live.1 ht
  obtain ⟨hl, -, hk⟩ := live_eq hs ht
  refine ⟨?_, ?_⟩
  · simp only [step, find_of_mem hs.nodup hm.1, hd, if_true, hk, settle_intervalCallback]
  · rw [live_rearm]
    have : liveIntervals { s with log := s.log ++ tickLog s.now s.host } = liveIntervals s := rfl
    rw [this, hl]
    simp [Timer.rearm, hk]

theorem clicks_tickLog (t : Nat) (h : Host) :
    (tickLog t h).countP (fun e => e.2 == Effect.click) = if h.root && h.btn then 1 else 0 := by
  unfold tickLog
  cases h.root <;> cases h.btn <;> simp

theorem starts_tickLog (t : Nat) (h : Host) :
    (tickLog t h).countP (fun e => e.2.isSetInterval) = 0 := by
  unfold tickLog
  cases h.root <;> cases h.btn <;> simp [Effect.isSetInterval]

/-- One tick of the live timer. -/
theorem tick_spec {s : State} (hs : Inv s) {t : Timer} (ht : liveIntervals s = [t]) (h : Host) :
    ∃ s', tickWith h s = some s' ∧ Inv s' ∧
      s'.log = s.log ++ tickLog (max s.now t.due) h ∧
      liveIntervals s' = [{ t with due := max s.now t.due + 5000 }] ∧
      s'.now = max s.now t.due ∧
      s'.refreshInterval = s.refreshInterval ∧
      pendingChecks s' = pendingChecks s ∧
      s'.nextId = s.nextId ∧ s'.host = h := by
  have hmax : s.now + (t.due - s.now) = max s.now t.due := by
    rcases Nat.le_total s.now t.due with h1 | h1
    · rw [Nat.max_eq_right h1]; omega
    · rw [Nat.max_eq_left h1]; omega
  let s1 : State := { s with host := h, now := s.now + (t.due - s.now) }
  have hs1 : Inv s1 := inv_congr hs rfl rfl rfl rfl
  have hl1 : liveIntervals s1 = liveIntervals s := rfl
  have ht1 : t ∈ liveIntervals s1 := by rw [hl1, ht]; simp
  have hd1 : t.due ≤ s1.now := by
    show t.due ≤ s.now + (t.due - s.now)
    omega
  obtain ⟨hf, hl⟩ := fire_live hs1 ht1 hd1
  refine ⟨rearm t.id { s1 with log := s1.log ++ tickLog s1.now s1.host }, ?_, ?_, ?_, ?_, ?_,
    rfl, ?_, rfl, rfl⟩
  · have he : tickWith h s = (step (.fire t.id) s1).bind (exec []) := by
      simp only [tickWith, ht]
      rfl
    rw [he, hf]
    rfl
  · apply inv_rearm
    exact inv_congr hs1 rfl rfl rfl
      (by simp [starts, List.countP_append, starts_tickLog])
  · show s.log ++ tickLog (s.now + (t.due - s.now)) h = _
    rw [hmax]
  · rw [hl]
    show [{ t with due := s.now + (t.due - s.now) + 5000 }] = _
    rw [hmax]
  · exact hmax
  · rw [pending_rearm]
    rfl

/-- Any number of ticks of the live timer. -/
theorem ticks_spec (hosts : List Host) :
    ∀ {s : State} {t : Timer}, Inv s → liveIntervals s = [t] →
    ∃ s', ticksWith hosts s = some s' ∧ Inv s' ∧
      s'.log = s.log ++ ticksLog (max s.now t.due) hosts ∧
      liveIntervals s' = [{ t with due := dueAfter t.due (max s.now t.due) hosts.length }] ∧
      s'.refreshInterval = s.refreshInterval ∧
      pendingChecks s' = pendingChecks s ∧
      s'.nextId = s.nextId := by
  induction hosts with
  | nil =>
    intro s t hs ht
    exact ⟨s, rfl, hs, by simp [ticksLog], by simp [dueAfter, ht], rfl, rfl, rfl⟩
  | cons h rest ih =>
    intro s t hs ht
    obtain ⟨s1, h1, hi1, hlog1, hl1, hn1, hr1, hp1, hid1, -⟩ := tick_spec hs ht h
    obtain ⟨s2, h2, hi2, hlog2, hl2, hr2, hp2, hid2⟩ := ih hi1 hl1
    have hmax : max s1.now (max s.now t.due + 5000) = max s.now t.due + 5000 := by
      rw [hn1]; omega
    simp only [hmax] at hlog2 hl2
    refine ⟨s2, ?_, hi2, ?_, ?_, hr2.trans hr1, hp2.trans hp1, hid2.trans hid1⟩
    · simp only [ticksWith, h1, Option.bind]
      exact h2
    · rw [hlog2, hlog1, ticksLog, List.append_assoc]
    · rw [hl2]
      have hd : dueAfter (max s.now t.due + 5000) (max s.now t.due + 5000) rest.length =
          dueAfter t.due (max s.now t.due) (rest.length + 1) := by
        unfold dueAfter
        by_cases h0 : rest.length = 0
        · simp [h0]
        · simp only [h0, if_false, Nat.succ_ne_zero]
          omega
      simp only [List.length_cons]
      rw [hd]

theorem startedState_reachable : Reachable startedState :=
  reachable_exec [.uiLoaded] (Reachable.start hostReady) (by decide)

theorem intervalCallback_ok (s : State) (hr : s.host.root = true) :
    intervalCallback s = .ok { s with log := s.log ++
      (s.now, Effect.querySelector .tracker_table_refresh_btn s.host.btn) ::
        (if s.host.btn then [(s.now, Effect.click)] else []) } := by
  unfold intervalCallback query querySelector
  cases hb : s.host.btn <;> simp [click, record, hr, hb]

theorem checkAndStart_absent (s : State)
    (hq : querySelector s.host .tab_job_tracker = .ok false) :
    checkAndStart s = .ok { s with
      timers := s.timers ++ [{ id := s.nextId, kind := .timeout, due := s.now + 1000 }],
      nextId := s.nextId + 1,
      log := s.log ++ [(s.now, .querySelector .tab_job_tracker false),
        (s.now, .setTimeout s.nextId 1000)] } := by
  simp [checkAndStart, query, hq, setTimeout, record]

theorem checkAndStart_present (s : State)
    (hq : querySelector s.host .tab_job_tracker = .ok true) :
    checkAndStart s = .ok (startAutoRefresh (record (.querySelector .tab_job_tracker true) s)) := by
  simp [checkAndStart, query, hq]

/-- C7, as the claim states it, fails: with the UI tree not yet built
(`gradioApp()` falsy), `checkAndStart`, the tick callback and the UI-ready
callback raise a TypeError, and a poll check that raises schedules no
re-check: after the check armed by `DOMContentLoaded` has fired there is no
pending check and no timer, so polling has stopped for good. -/
theorem callbacks_raise_without_root :
    checkAndStart (init hostAbsent) = .error .typeError ∧
    intervalCallback (init hostAbsent) = .error .typeError ∧
    onUiLoaded (init hostAbsent) = .error .typeError ∧
    exec [.domContentLoaded, .advance 2000, .fire 1] (init hostAbsent) =
      some { refreshInterval := none, timers := [], nextId := 2, now := 2000,
             host := hostAbsent, log := [(0, .setTimeout 1 2000)] } :=
  ⟨rfl, rfl, rfl, by decide⟩

/-- C7, amended: whenever `gradioApp()` returns a root, whether or not the
queried element is in it, `checkAndStart`, the tick callback and the UI-ready
callback return normally, and the `DOMContentLoaded` listener returns normally
in every host state; a poll check that finds nothing then always schedules its
re-check, and a tick of the live timer leaves that timer live.  When
`gradioApp()` is falsy the three callbacks that query the tree raise a
TypeError. -/
theorem callbacks_return_with_root (s : State) :
    (∃ s', onDOMContentLoaded s = .ok s') ∧
    (s.host.root = true →
      (∃ s', checkAndStart s = .ok s') ∧ (∃ s', intervalCallback s = .ok s') ∧
      (∃ s', onUiLoaded s = .ok s') ∧
      (s.host.tab = false → ∃ s', checkAndStart s = .ok s' ∧
        pendingChecks s' =
          pendingChecks s ++ [{ id := s.nextId, kind := .timeout, due := s.now + 1000 }])) ∧
    (s.host.root = false →
      checkAndStart s = .error .typeError ∧ intervalCallback s = .error .typeError ∧
      onUiLoaded s = .error .typeError) ∧
    (Reachable s → ∀ t ∈ liveIntervals s, t.due ≤ s.now →
      ∃ s', step (.fire t.id) s = some s' ∧
        liveIntervals s' = [{ t with due := s.now + 5000 }] ∧
        s'.refreshInterval = s.refreshInterval) := by
  refine ⟨⟨_, rfl⟩, ?_, ?_, ?_⟩
  · intro hr
    have hc : ∃ s', checkAndStart s = .ok s' := by
      cases hb : s.host.tab
      · exact ⟨_, checkAndStart_absent s (by simp [querySelector, hr, hb])⟩
      · exact ⟨_, checkAndStart_present s (by simp [querySelector, hr, hb])⟩
    refine ⟨hc, ⟨_, intervalCallback_ok s hr⟩, hc, ?_⟩
    intro hb
    refine ⟨_, checkAndStart_absent s (by simp [querySelector, hr, hb]), ?_⟩
    simp [pendingChecks, List.filter_append, Timer.isInterval]
  · intro hr
    simp [checkAndStart, intervalCallback, onUiLoaded, query, querySelector, hr]
  · intro hs t ht hd
    obtain ⟨hf, hl⟩ := fire_live (reachable_inv hs) ht hd
    exact ⟨_, hf, hl, rfl⟩

theorem callbacks_return_with_root_witness :
    startedState.host.root = true ∧ (init hostEmpty).host.tab = false ∧
    (init hostAbsent).host.root = false ∧
    (∃ s', checkAndStart startedState = .ok s') ∧
    (∃ s', checkAndStart (init hostEmpty) = .ok s' ∧
      pendingChecks s' = pendingChecks (init hostEmpty) ++
        [{ id := (init hostEmpty).nextId, kind := .timeout, due := (init hostEmpty).now + 1000 }]) ∧
    checkAndStart (init hostAbsent) = .error .typeError ∧
    (∃ s', step (.fire 1) { startedState with now := 5000 } = some s' ∧
      liveIntervals s' = [{ id := 1, kind := .interval 5000, due := 10000 }]) :=
  ⟨by decide, by decide, by decide,
    ((callbacks_return_with_root startedState).2.1 (by decide)).1,
    ((callbacks_return_with_root (init hostEmpty)).2.1 (by decide)).2.2.2 (by decide),
    ((callbacks_return_with_root (init hostAbsent)).2.2.1 (by decide)).1,
    by
      obtain ⟨s', h1, h2, -⟩ :=
        (callbacks_return_with_root { startedState with now := 5000 }).2.2.2
          (reachable_exec [.advance 5000] startedState_reachable (by decide))
          { id := 1, kind := .interval 5000, due := 5000 } (by decide) (by decide)
      exact ⟨s', h1, h2⟩⟩

theorem dead_setTimeout {id : Nat} {s : State} (d : Nat) (h : Dead id s) :
    Dead id (setTimeout d s).2 := by
  obtain ⟨h1, h2⟩ := h
  refine ⟨Nat.lt_succ_of_lt h1, ?_⟩
  intro t ht
  simp only [setTimeout, record, List.mem_append, List.mem_singleton] at ht
  rcases ht with ht | rfl
  · exact h2 t ht
  · exact Nat.ne_of_gt h1

theorem dead_congr {id : Nat} {s s' : State} (h : Dead id s) (h1 : s'.timers = s.timers)
    (h2 : s'.nextId = s.nextId) : Dead id s' := by
  unfold Dead
  rw [h1, h2]
  exact h

theorem dead_filter {id : Nat} {s : State} (p : Timer → Bool) (h : Dead id s) :
    Dead id { s with timers := s.timers.filter p } :=
  ⟨h.1, fun t ht => h.2 t (List.mem_filter.1 ht).1⟩

theorem dead_setInterval {id : Nat} {s : State} (d : Nat) (h : Dead id s) :
    Dead id (setInterval d s).2 := by
  obtain ⟨h1, h2⟩ := h
  refine ⟨Nat.lt_succ_of_lt h1, ?_⟩
  intro t ht
  simp only [setInterval, record, List.mem_append, List.mem_singleton] at ht
  rcases ht with ht | rfl
  · exact h2 t ht
  · exact Nat.ne_of_gt h1

theorem dead_start {id : Nat} {s : State} (h : Dead id s) : Dead id (startAutoRefresh s) := by
  unfold startAutoRefresh
  have key : ∀ s1 : State, Dead id s1 →
      Dead id { (setInterval 5000 s1).2 with refreshInterval := some (setInterval 5000 s1).1 } :=
    fun s1 h1 => dead_congr (dead_setInterval 5000 h1) rfl rfl
  apply key
  cases s.refreshInterval with
  | none => exact h
  | some x =>
    simp only
    split
    · exact dead_congr (dead_filter (fun t => t.id != x) h) rfl rfl
    · exact h

theorem dead_checkAndStart {id : Nat} {s : State} (h : Dead id s) :
    Dead id (settle s (checkAndStart s)) := by
  unfold checkAndStart
  cases hq : query .tab_job_tracker s with
  | error e => simpa [settle] using h
  | ok r =>
    obtain ⟨b, s1⟩ := r
    obtain ⟨rfl, -⟩ := log_query hq
    have h1 : Dead id (record (.querySelector .tab_job_tracker b) s) := dead_congr h rfl rfl
    cases b
    · simpa [settle] using dead_setTimeout 1000 h1
    · simpa [settle] using dead_start h1

theorem dead_rearm {id : Nat} {s : State} (i : Nat) (h : Dead id s) : Dead id (rearm i s) := by
  refine ⟨h.1, ?_⟩
  intro t ht
  simp only [rearm, List.mem_map] at ht
  obtain ⟨u, hu, rfl⟩ := ht
  rw [Timer.rearm_id]
  exact h.2 u hu

/-- A handle that has left the timer table never comes back. -/
theorem dead_step {id : Nat} {s s' : State} {e : Event} (h : Dead id s)
    (he : step e s = some s') : Dead id s' := by
  cases e with
  | domContentLoaded =>
    simp only [step, Option.some.injEq] at he
    subst he
    exact dead_setTimeout 2000 h
  | uiLoaded =>
    simp only [step, Option.some.injEq] at he
    subst he
    exact dead_checkAndStart h
  | advance d =>
    simp only [step, Option.some.injEq] at he
    subst he
    exact dead_congr h rfl rfl
  | setHost h0 =>
    simp only [step, Option.some.injEq] at he
    subst he
    exact dead_congr h rfl rfl
  | fire i =>
    simp only [step] at he
    cases hf : s.timers.find? (fun t => t.id == i) with
    | none => simp [hf] at he
    | some t =>
      simp only [hf] at he
      split at he
      · cases hk : t.kind with
        | timeout =>
          simp only [hk, Option.some.injEq] at he
          subst he
          exact dead_checkAndStart (dead_filter _ h)
        | interval p =>
          simp only [hk, Option.some.injEq] at he
          subst he
          rw [settle_intervalCallback]
          exact dead_rearm i (dead_congr h rfl rfl)
      · simp at he

theorem dead_exec {id : Nat} (evs : List Event) :
    ∀ {s s' : State}, Dead id s → exec evs s = some s' → Dead id s' := by
  induction evs with
  | nil =>
    intro s s' h he
    simp only [exec, Option.some.injEq] at he
    subst he
    exact h
  | cons e es ih =>
    intro s s' h he
    simp only [exec] at he
    cases hs1 : step e s with
    | none => simp [hs1] at he
    | some s1 =>
      rw [hs1] at he
      exact ih (dead_step h hs1) he

/-- A dead handle cannot fire. -/
theorem dead_fire {id : Nat} {s : State} (h : Dead id s) : step (.fire id) s = none := by
  have : s.timers.find? (fun t => t.id == id) = none := by
    rw [List.find?_eq_none]
    intro t ht
    simpa using h.2 t ht
  simp [step, this]

/-- The state after `m + 1` consecutive runs of `startAutoRefresh`. -/
theorem iterate_start {s : State} (hs : Inv s) (m : Nat) :
    Inv (startAutoRefresh^[m + 1] s) ∧
    (startAutoRefresh^[m + 1] s).timers =
      pendingChecks s ++ [{ id := s.nextId + m, kind := .interval 5000, due := s.now + 5000 }] ∧
    (startAutoRefresh^[m + 1] s).refreshInterval = some (s.nextId + m) ∧
    (startAutoRefresh^[m + 1] s).nextId = s.nextId + m + 1 ∧
    (startAutoRefresh^[m + 1] s).now = s.now ∧
    (startAutoRefresh^[m + 1] s).host = s.host ∧
    (startAutoRefresh^[m + 1] s).log = s.log ++ startLog s ++ restartLog s.now s.nextId m := by
  induction m with
  | zero =>
    simp only [Function.iterate_succ, Function.iterate_zero, Function.comp_apply, id_eq]
    refine ⟨inv_start hs, ?_⟩
    rw [startAutoRefresh_eq hs]
    simp [restartLog]
  | succ m ih =>
    rw [Function.iterate_succ_apply']
    generalize startAutoRefresh^[m + 1] s = S at ih ⊢
    obtain ⟨hi, ht, hr, hn, hnow, hh, hl⟩ := ih
    refine ⟨inv_start hi, ?_⟩
    rw [startAutoRefresh_eq hi]
    have hp : pendingChecks S = pendingChecks s := by
      simp [pendingChecks, ht, List.filter_append, List.filter_filter, Timer.isInterval]
    have hsl : startLog S =
        [(s.now, Effect.clearInterval (s.nextId + m)),
          (s.now, Effect.setInterval (s.nextId + m + 1) 5000)] := by
      simp [startLog, hr, hn, hnow]
    simp only [hp, hn, hnow, hh, hl, hsl, restartLog, List.append_assoc]
    simp [Nat.add_assoc]

theorem mem_restartLog (now n0 : Nat) {m i : Nat} (hi : i < m) :
    (now, Effect.clearInterval (n0 + i)) ∈ restartLog now n0 m := by
  induction m with
  | zero => omega
  | succ m ih =>
    simp only [restartLog, List.mem_append]
    rcases Nat.lt_succ_iff_lt_or_eq.1 hi with h | rfl
    · exact Or.inl (ih h)
    · exact Or.inr (by simp)

theorem dead_tickWith {id : Nat} {h : Host} {s s' : State} (hd : Dead id s)
    (he : tickWith h s = some s') : Dead id s' := by
  unfold tickWith at he
  split at he
  · exact dead_exec _ hd he
  · simp at he

theorem dead_ticksWith {id : Nat} (hosts : List Host) :
    ∀ {s s' : State}, Dead id s → ticksWith hosts s = some s' → Dead id s' := by
  induction hosts with
  | nil =>
    intro s s' hd he
    simp only [ticksWith, Option.some.injEq] at he
    subst he
    exact hd
  | cons h rest ih =>
    intro s s' hd he
    simp only [ticksWith] at he
    cases h1 : tickWith h s with
    | none => simp [h1] at he
    | some s1 =>
      rw [h1] at he
      exact ih (dead_tickWith hd h1) he

/-- C2: `startAutoRefresh` is idempotent.  From any state of the system, `N`
consecutive runs (`N ≥ 1`) leave exactly one live interval timer; it is the
one the last run created, it is due 5000 ms after the runs, and its handle is
the one stored in `refreshInterval`; the pending checks are untouched; each
timer created by an earlier run has been cancelled by the run after it and can
never fire again, whatever happens later.  In particular after two runs 10 ms
apart the ticks are those of the second timer alone: the first is 5000 ms
after the second run and the following ones 5000 ms apart, while the first
timer never ticks. -/
theorem startAutoRefresh_idempotent (s : State) (hs : Reachable s) (N : Nat) (hN : 1 ≤ N) :
    liveIntervals (startAutoRefresh^[N] s) =
      [{ id := s.nextId + (N - 1), kind := .interval 5000, due := s.now + 5000 }] ∧
    (startAutoRefresh^[N] s).refreshInterval = some (s.nextId + (N - 1)) ∧
    pendingChecks (startAutoRefresh^[N] s) = pendingChecks s ∧
    (startAutoRefresh^[N] s).log = s.log ++ startLog s ++ restartLog s.now s.nextId (N - 1) ∧
    (∀ i, i < N - 1 →
      (s.now, Effect.clearInterval (s.nextId + i)) ∈ (startAutoRefresh^[N] s).log ∧
      ∀ evs s', exec evs (startAutoRefresh^[N] s) = some s' →
        (∀ t ∈ s'.timers, t.id ≠ s.nextId + i) ∧ step (.fire (s.nextId + i)) s' = none) ∧
    (∀ hosts : List Host, ∃ s',
      ticksWith hosts (startAutoRefresh (advance 10 (startAutoRefresh s))) = some s' ∧
      s'.log = (startAutoRefresh (advance 10 (startAutoRefresh s))).log ++
        ticksLog (s.now + 5010) hosts ∧
      liveIntervals s' =
        [{ id := s.nextId + 1, kind := .interval 5000,
           due := dueAfter (s.now + 5010) (s.now + 5010) hosts.length }] ∧
      s'.refreshInterval = some (s.nextId + 1) ∧
      step (.fire s.nextId) s' = none) := by
  have hi := reachable_inv hs
  obtain ⟨m, rfl⟩ : ∃ m, N = m + 1 := ⟨N - 1, by omega⟩
  obtain ⟨hinv, ht, hr, hn, hnow, hh, hl⟩ := iterate_start hi m
  generalize startAutoRefresh^[m + 1] s = S at hinv ht hr hn hnow hh hl ⊢
  simp only [Nat.add_sub_cancel]
  refine ⟨?_, hr, ?_, hl, ?_, ?_⟩
  · simp [liveIntervals, ht, pendingChecks, List.filter_append, List.filter_filter,
      Timer.isInterval]
  · simp [pendingChecks, ht, List.filter_append, List.filter_filter, Timer.isInterval]
  · intro i him
    refine ⟨?_, ?_⟩
    · rw [hl]
      exact List.mem_append_right _ (mem_restartLog s.now s.nextId him)
    · intro evs s' he
      have hd : Dead (s.nextId + i) S := by
        refine ⟨by rw [hn]; omega, ?_⟩
        intro t htm
        rw [ht] at htm
        simp only [List.mem_append, List.mem_singleton] at htm
        rcases htm with htm | rfl
        · exact Nat.ne_of_lt (Nat.lt_of_lt_of_le (hi.fresh t (mem_pending.1 htm).1)
            (Nat.le_add_right _ _))
        · simp only
          omega
      have hd' := dead_exec evs hd he
      exact ⟨hd'.2, dead_fire hd'⟩
  · intro hosts
    have h1 : Inv (startAutoRefresh s) := inv_start hi
    have h2 : Inv (advance 10 (startAutoRefresh s)) := inv_congr h1 rfl rfl rfl rfl
    have h3 : Inv (startAutoRefresh (advance 10 (startAutoRefresh s))) := inv_start h2
    have e1 := startAutoRefresh_eq hi
    have hl3 := live_start h2
    have hnx : (advance 10 (startAutoRefresh s)).nextId = s.nextId + 1 := by
      show (startAutoRefresh s).nextId = _
      rw [e1]
    have hnw : (advance 10 (startAutoRefresh s)).now = s.now + 10 := by
      show (startAutoRefresh s).now + 10 = _
      rw [e1]
    rw [hnx, hnw] at hl3
    obtain ⟨s', q1, q2, q3, q4, q5, q6, q7⟩ := ticks_spec hosts h3 hl3
    have hnow3 : (startAutoRefresh (advance 10 (startAutoRefresh s))).now = s.now + 10 := by
      rw [startAutoRefresh_eq h2]
      exact hnw
    have hmax : max (startAutoRefresh (advance 10 (startAutoRefresh s))).now (s.now + 10 + 5000) =
        s.now + 5010 := by
      rw [hnow3]
      omega
    simp only [hmax] at q3 q4
    have hd0 : Dead s.nextId (startAutoRefresh (advance 10 (startAutoRefresh s))) := by
      have hpe : pendingChecks (advance 10 (startAutoRefresh s)) = pendingChecks s := by
        show pendingChecks (startAutoRefresh s) = _
        exact pending_start hi
      refine ⟨?_, ?_⟩
      · rw [startAutoRefresh_eq h2]
        simp only [hnx]
        omega
      · intro t htm
        rw [startAutoRefresh_eq h2] at htm
        simp only [hpe, hnx, List.mem_append, List.mem_singleton] at htm
        rcases htm with htm | rfl
        · exact Nat.ne_of_lt (hi.fresh t (mem_pending.1 htm).1)
        · simp
    have hds : Dead s.nextId s' := dead_ticksWith hosts hd0 q1
    refine ⟨s', q1, q3, ?_, ?_, dead_fire hds⟩
    · rw [q4]
    · rw [q5, startAutoRefresh_eq h2]
      simp only [hnx]

theorem startAutoRefresh_idempotent_witness :
    Reachable startedState ∧ 1 ≤ 3 ∧
    liveIntervals (startAutoRefresh^[3] startedState) =
      [{ id := 4, kind := .interval 5000, due := 5000 }] ∧
    (startAutoRefresh^[3] startedState).refreshInterval = some 4 :=
  ⟨startedState_reachable, by decide,
    (startAutoRefresh_idempotent startedState startedState_reachable 3 (by decide)).1,
    (startAutoRefresh_idempotent startedState startedState_reachable 3 (by decide)).2.1⟩

/-- C10: a restart resets the cadence, and the two entry paths differ: the
UI-ready callback is `checkAndStart` itself, the `DOMContentLoaded` listener
only arms a check 2000 ms later.  With both signals delivered at time 0, in
either order, and the region present from the start, `startAutoRefresh` runs
at 0 and again at 2000, the second run cancels the timer of the first, and the
first tick is at 7000, none at 5000.  In general a run of `startAutoRefresh`
at time `t` while a timer is live takes that timer out of the table and makes
the next tick due at `t + 5000`, whenever the old timer was due. -/
theorem restart_resets_cadence :
    (∀ s, onUiLoaded s = checkAndStart s) ∧
    (∀ s, onDOMContentLoaded s = .ok { s with
      timers := s.timers ++ [{ id := s.nextId, kind := .timeout, due := s.now + 2000 }],
      nextId := s.nextId + 1,
      log := s.log ++ [(s.now, .setTimeout s.nextId 2000)] }) ∧
    (exec [.uiLoaded, .domContentLoaded] (init hostReady)).bind (runFor (fun _ => hostReady) 2) =
      some { refreshInterval := some 3,
             timers := [{ id := 3, kind := .interval 5000, due := 12000 }],
             nextId := 4, now := 7000, host := hostReady,
             log := [(0, .querySelector .tab_job_tracker true), (0, .setInterval 1 5000),
               (0, .setTimeout 2 2000),
               (2000, .querySelector .tab_job_tracker true), (2000, .clearInterval 1),
               (2000, .setInterval 3 5000),
               (7000, .querySelector .tracker_table_refresh_btn true), (7000, .click)] } ∧
    (exec [.domContentLoaded, .uiLoaded] (init hostReady)).bind (runFor (fun _ => hostReady) 2) =
      some { refreshInterval := some 3,
             timers := [{ id := 3, kind := .interval 5000, due := 12000 }],
             nextId := 4, now := 7000, host := hostReady,
             log := [(0, .setTimeout 1 2000),
               (0, .querySelector .tab_job_tracker true), (0, .setInterval 2 5000),
               (2000, .querySelector .tab_job_tracker true), (2000, .clearInterval 2),
               (2000, .setInterval 3 5000),
               (7000, .querySelector .tracker_table_refresh_btn true), (7000, .click)] } ∧
    (∀ s, Reachable s → ∀ t ∈ liveIntervals s,
      liveIntervals (startAutoRefresh s) =
        [{ id := s.nextId, kind := .interval 5000, due := s.now + 5000 }] ∧
      t ∉ (startAutoRefresh s).timers ∧
      (s.now, Effect.clearInterval t.id) ∈ (startAutoRefresh s).log) := by
  refine ⟨fun _ => rfl, fun _ => rfl, by decide, by decide, ?_⟩
  intro s hs t ht
  have hi := reachable_inv hs
  obtain ⟨-, hr, -⟩ := live_eq hi ht
  refine ⟨live_start hi, ?_, ?_⟩
  · rw [startAutoRefresh_eq hi]
    simp only [List.mem_append, List.mem_singleton, not_or]
    constructor
    · intro hm
      have h1 := (mem_pending.1 hm).2
      have h2 := (mem_live.1 ht).2
      rw [h1] at h2
      exact Bool.noConfusion h2
    · intro he
      have := hi.fresh t (mem_live.1 ht).1
      rw [he] at this
      exact Nat.lt_irrefl _ this
  · rw [startAutoRefresh_eq hi]
    simp [startLog, hr]

theorem restart_resets_cadence_witness :
    Reachable (advance 3000 startedState) ∧
    ({ id := 1, kind := .interval 5000, due := 5000 } : Timer) ∈
      liveIntervals (advance 3000 startedState) ∧
    liveIntervals (startAutoRefresh (advance 3000 startedState)) =
      [{ id := 2, kind := .interval 5000, due := 8000 }] :=
  ⟨reachable_exec [.advance 3000] startedState_reachable (by decide), by decide,
    (restart_resets_cadence.2.2.2.2 (advance 3000 startedState)
      (reachable_exec [.advance 3000] startedState_reachable (by decide))
      { id := 1, kind := .interval 5000, due := 5000 } (by decide)).1⟩

theorem poll_step_absent (n d t0 : Nat) (h0 h : Host) (l : List (Nat × Effect))
    (hle : t0 ≤ d) (hr : h.root = true) (ht : h.tab = false) :
    runNextWith h (polling n d t0 h0 l) =
      some (polling (n + 1) (d + 1000) d h
        (l ++ [(d, .querySelector .tab_job_tracker false), (d, .setTimeout (n + 1) 1000)])) := by
  simp [runNextWith, polling, earliest, exec, step, advance, settle, checkAndStart, query,
    querySelector, hr, ht, setTimeout, record, Nat.add_sub_of_le hle]

theorem poll_step_present (n d t0 : Nat) (h0 h : Host) (l : List (Nat × Effect))
    (hle : t0 ≤ d) (hr : h.root = true) (ht : h.tab = true) :
    runNextWith h (polling n d t0 h0 l) = some (triggered (n + 1) d h l) := by
  simp [runNextWith, polling, triggered, earliest, exec, step, advance, settle, checkAndStart,
    query, querySelector, hr, ht, startAutoRefresh, setInterval, record,
    Nat.add_sub_of_le hle]

/-- A polling chain: the pending check and its re-checks find nothing while
the UI trees are those of `absent`, and the next check finds the region. -/
theorem poll_run (absent : List Host) :
    ∀ (n d t0 : Nat) (h0 p : Host) (l : List (Nat × Effect)), t0 ≤ d →
      (∀ h ∈ absent, h.root = true ∧ h.tab = false) → p.root = true → p.tab = true →
      runWith (absent ++ [p]) (polling n d t0 h0 l) =
        some (triggered (n + 1 + absent.length) (d + 1000 * absent.length) p
          (l ++ pollLog d (n + 1) absent.length)) := by
  induction absent with
  | nil =>
    intro n d t0 h0 p l hle _ hr ht
    simp [runWith, poll_step_present n d t0 h0 p l hle hr ht, pollLog]
  | cons a rest ih =>
    intro n d t0 h0 p l hle ha hr ht
    obtain ⟨har, hat⟩ := ha a (List.mem_cons_self _ _)
    have hrest : ∀ h ∈ rest, h.root = true ∧ h.tab = false :=
      fun h hh => ha h (List.mem_cons_of_mem _ hh)
    have hstep : runWith (a :: rest ++ [p]) (polling n d t0 h0 l) =
        runWith (rest ++ [p]) (polling (n + 1) (d + 1000) d a
          (l ++ [(d, .querySelector .tab_job_tracker false), (d, .setTimeout (n + 1) 1000)])) := by
      show (runNextWith a (polling n d t0 h0 l)).bind (runWith (rest ++ [p])) = _
      rw [poll_step_absent n d t0 h0 a l hle har hat]
      rfl
    rw [hstep, ih (n + 1) (d + 1000) d a p _ (Nat.le_add_right _ _) hrest hr ht]
    simp only [List.length_cons, pollLog, List.append_assoc, List.cons_append, List.nil_append]
    congr 2 <;> omega

theorem count_pollLog (j : Nat) : ∀ t n,
    (pollLog t n j).countP (fun e => e.2 == Effect.querySelector .tab_job_tracker false) = j ∧
    (pollLog t n j).countP (fun e => e.2.isSetTimeout) = j ∧
    (pollLog t n j).countP (fun e => e.2.isSetInterval) = 0 := by
  induction j with
  | zero => intro t n; simp [pollLog]
  | succ j ih =>
    intro t n
    obtain ⟨h1, h2, h3⟩ := ih (t + 1000) (n + 1)
    rw [pollLog]
    simp only [List.countP_cons, h1, h2, h3]
    simp [Effect.isSetTimeout, Effect.isSetInterval]

theorem uiLoaded_absent (h : Host) (hr : h.root = true) (ht : h.tab = false) :
    step .uiLoaded (init h) =
      some (polling 1 1000 0 h
        [(0, .querySelector .tab_job_tracker false), (0, .setTimeout 1 1000)]) := by
  simp [step, onUiLoaded, init, polling, settle, checkAndStart, query, querySelector, hr, ht,
    setTimeout, record]

theorem uiLoaded_present (h : Host) (hr : h.root = true) (ht : h.tab = true) :
    step .uiLoaded (init h) = some (triggered 1 0 h []) := by
  simp [step, onUiLoaded, init, triggered, settle, checkAndStart, query, querySelector, hr, ht,
    startAutoRefresh, setInterval, record]

theorem runNext_polling (tl : Nat → Host) (n d t0 : Nat) (h0 : Host) (l : List (Nat × Effect))
    (hle : t0 ≤ d) :
    runNext tl (polling n d t0 h0 l) = runNextWith (tl d) (polling n d t0 h0 l) := by
  simp [runNext, polling, earliest, Nat.max_eq_right hle]

/-- A polling chain on the clock: the pending check is due at `d`, the checks
at `d`, `d + 1000`, ... find nothing, the one at `d + 1000 * k` finds the
region. -/
theorem timeline_run (tl : Nat → Host) (hroot : ∀ t, (tl t).root = true) (k : Nat) :
    ∀ (n d t0 : Nat) (h0 : Host) (l : List (Nat × Effect)), t0 ≤ d →
      (∀ j, j < k → (tl (d + 1000 * j)).tab = false) → (tl (d + 1000 * k)).tab = true →
      runFor tl (k + 1) (polling n d t0 h0 l) =
        some (triggered (n + 1 + k) (d + 1000 * k) (tl (d + 1000 * k))
          (l ++ pollLog d (n + 1) k)) := by
  induction k with
  | zero =>
    intro n d t0 h0 l hle _ hp
    simp only [runFor, runNext_polling tl n d t0 h0 l hle]
    rw [poll_step_present n d t0 h0 (tl d) l hle (hroot _) hp]
    simp [pollLog]
  | succ k ih =>
    intro n d t0 h0 l hle ha hp
    have h0a : (tl d).tab = false := ha 0 (Nat.succ_pos _)
    have hstep : runFor tl (k + 1 + 1) (polling n d t0 h0 l) =
        runFor tl (k + 1) (polling (n + 1) (d + 1000) d (tl d)
          (l ++ [(d, .querySelector .tab_job_tracker false), (d, .setTimeout (n + 1) 1000)])) := by
      show (runNext tl (polling n d t0 h0 l)).bind (runFor tl (k + 1)) = _
      rw [runNext_polling tl n d t0 h0 l hle, poll_step_absent n d t0 h0 (tl d) l hle (hroot _) h0a]
      rfl
    have ha' : ∀ j, j < k → (tl (d + 1000 + 1000 * j)).tab = false := by
      intro j hj
      have := ha (j + 1) (Nat.succ_lt_succ hj)
      rw [show d + 1000 * (j + 1) = d + 1000 + 1000 * j by omega] at this
      exact this
    have hp' : (tl (d + 1000 + 1000 * k)).tab = true := by
      rw [show d + 1000 + 1000 * k = d + 1000 * (k + 1) by omega]
      exact hp
    rw [hstep, ih (n + 1) (d + 1000) d (tl d) _ (Nat.le_add_right _ _) ha' hp']
    have e1 : n + 1 + 1 + k = n + 1 + (k + 1) := by omega
    have e2 : d + 1000 + 1000 * k = d + 1000 * (k + 1) := by omega
    rw [e1, e2]
    simp only [pollLog, List.append_assoc, List.cons_append, List.nil_append]

/-- The first tick after the trigger started. -/
theorem first_tick (tl : Nat → Host) (n t : Nat) (h : Host) (l : List (Nat × Effect)) :
    runNext tl (triggered n t h l) =
      some { refreshInterval := some n,
             timers := [{ id := n, kind := .interval 5000, due := t + 10000 }],
             nextId := n + 1, now := t + 5000, host := tl (t + 5000),
             log := l ++ [(t, .querySelector .tab_job_tracker true), (t, .setInterval n 5000)] ++
               tickLog (t + 5000) (tl (t + 5000)) } := by
  have hm : max t (t + 5000) = t + 5000 := by omega
  simp [runNext, runNextWith, triggered, earliest, exec, step, advance, settle_intervalCallback,
    rearm, Timer.rearm, hm]

/-- C9, amended: timing of a polling chain on a clock in ms, when
`gradioApp()` returns a root at all times.  A single chain makes its
first check at time 0 (the UI-ready callback on a fresh page); the target
region is absent before time `a` and present from `a` on.  With `k` the least
number such that `a ≤ 1000 * k`, the checks run at 0, 1000, 2000, ... and find
nothing before `1000 * k`, `startAutoRefresh` runs at `1000 * k`, and the
first tick is at `1000 * k + 5000`.  For `a = 2500` that is checks at 0, 1000
and 2000 finding nothing, the start at 3000 and the first tick at 8000; for
`a = 0` the start at 0 and the first tick at 5000. -/
theorem poll_timing (a k : Nat) (hk : k = (a + 999) / 1000) (tl : Nat → Host)
    (hroot : ∀ t, (tl t).root = true) (htab : ∀ t, (tl t).tab = decide (a ≤ t)) :
    (a ≤ 1000 * k ∧ ∀ m, a ≤ 1000 * m → k ≤ m) ∧
    (∃ s, (step .uiLoaded (init (tl 0))).bind (runFor tl k) = some s ∧
      s.log = pollLog 0 1 k ++
        [(1000 * k, .querySelector .tab_job_tracker true), (1000 * k, .setInterval (k + 1) 5000)] ∧
      s.now = 1000 * k ∧ pendingChecks s = [] ∧
      liveIntervals s = [{ id := k + 1, kind := .interval 5000, due := 1000 * k + 5000 }] ∧
      ∃ s', runNext tl s = some s' ∧ s'.now = 1000 * k + 5000 ∧
        s'.log = s.log ++ tickLog (1000 * k + 5000) (tl (1000 * k + 5000))) ∧
    (step .uiLoaded (init (regionFrom 2500 true 0))).bind (runFor (regionFrom 2500 true) 4) =
      some { refreshInterval := some 4,
             timers := [{ id := 4, kind := .interval 5000, due := 13000 }],
             nextId := 5, now := 8000, host := regionFrom 2500 true 8000,
             log := [(0, .querySelector .tab_job_tracker false), (0, .setTimeout 1 1000),
               (1000, .querySelector .tab_job_tracker false), (1000, .setTimeout 2 1000),
               (2000, .querySelector .tab_job_tracker false), (2000, .setTimeout 3 1000),
               (3000, .querySelector .tab_job_tracker true), (3000, .setInterval 4 5000),
               (8000, .querySelector .tracker_table_refresh_btn true), (8000, .click)] } ∧
    (step .uiLoaded (init (regionFrom 0 true 0))).bind (runFor (regionFrom 0 true) 1) =
      some { refreshInterval := some 1,
             timers := [{ id := 1, kind := .interval 5000, due := 10000 }],
             nextId := 2, now := 5000, host := regionFrom 0 true 5000,
             log := [(0, .querySelector .tab_job_tracker true), (0, .setInterval 1 5000),
               (5000, .querySelector .tracker_table_refresh_btn true), (5000, .click)] } := by
  refine ⟨⟨by omega, fun m hm => by omega⟩, ?_, by decide, by decide⟩
  have hrun : (step .uiLoaded (init (tl 0))).bind (runFor tl k) =
      some (triggered (k + 1) (1000 * k) (tl (1000 * k)) (pollLog 0 1 k)) := by
    cases k with
    | zero =>
      have h0 : (tl 0).tab = true := by rw [htab]; simp; omega
      rw [uiLoaded_present (tl 0) (hroot 0) h0]
      rfl
    | succ m =>
      have h0 : (tl 0).tab = false := by rw [htab]; simp; omega
      have ha : ∀ j, j < m → (tl (1000 + 1000 * j)).tab = false := by
        intro j hj
        rw [htab]
        simp
        omega
      have hp : (tl (1000 + 1000 * m)).tab = true := by
        rw [htab]
        simp
        omega
      rw [uiLoaded_absent (tl 0) (hroot 0) h0, Option.some_bind,
        timeline_run tl hroot m 1 1000 0 (tl 0) _ (Nat.zero_le _) ha hp]
      have e1 : 1 + 1 + m = m + 1 + 1 := by omega
      have e2 : 1000 + 1000 * m = 1000 * (m + 1) := by omega
      have e3 : [(0, Effect.querySelector .tab_job_tracker false), (0, Effect.setTimeout 1 1000)] ++
          pollLog 1000 (1 + 1) m = pollLog 0 1 (m + 1) := rfl
      rw [e1, e2, e3]
  refine ⟨_, hrun, rfl, rfl, ?_, ?_, ?_⟩
  · simp [pendingChecks, triggered, Timer.isInterval]
  · simp [liveIntervals, triggered, Timer.isInterval]
  · exact ⟨_, first_tick tl _ _ _ _, rfl, rfl⟩

theorem poll_timing_witness :
    3 = (2500 + 999) / 1000 ∧ (∀ t, (regionFrom 2500 true t).root = true) ∧
    (∀ t, (regionFrom 2500 true t).tab = decide (2500 ≤ t)) ∧
    (2500 ≤ 1000 * 3 ∧ ∀ m, 2500 ≤ 1000 * m → 3 ≤ m) :=
  ⟨by decide, fun _ => rfl, fun _ => rfl,
    (poll_timing 2500 3 (by decide) (regionFrom 2500 true) (fun _ => rfl) (fun _ => rfl)).1⟩

theorem pending_setTimeout (d : Nat) (s : State) :
    pendingChecks (setTimeout d s).2 =
      pendingChecks s ++ [{ id := s.nextId, kind := .timeout, due := s.now + d }] := by
  simp [pendingChecks, setTimeout, record, List.filter_append, Timer.isInterval]

/-- What a poll check leaves pending: at most one check more than before. -/
theorem pending_checkAndStart {s : State} (hs : Inv s) :
    (pendingChecks (settle s (checkAndStart s))).length ≤ (pendingChecks s).length + 1 := by
  unfold checkAndStart
  cases hq : query .tab_job_tracker s with
  | error e => simp [settle]
  | ok r =>
    obtain ⟨b, s1⟩ := r
    have h1 := inv_query hs hq
    obtain ⟨rfl, -⟩ := log_query hq
    cases b
    · simp only [settle, Bool.false_eq_true, if_false, pending_setTimeout, List.length_append,
        List.length_singleton]
      exact Nat.le_refl _
    · simp only [settle, if_true, pending_start h1]
      exact Nat.le_succ _

/-- Taking a fired check out of the table leaves one pending check fewer. -/
theorem pending_remove {s : State} {t : Timer} (ht : t ∈ s.timers)
    (hk : t.isInterval = false) :
    (pendingChecks { s with timers := s.timers.filter (fun u => u.id != t.id) }).length <
      (pendingChecks s).length := by
  have he : pendingChecks { s with timers := s.timers.filter (fun u => u.id != t.id) } =
      (pendingChecks s).filter (fun u => u.id != t.id) := by
    simp only [pendingChecks, List.filter_filter]
    apply List.filter_congr
    intro u _
    exact Bool.and_comm _ _
  rw [he]
  apply List.length_filter_lt_length_iff_exists.2
  exact ⟨t, mem_pending.2 ⟨ht, hk⟩, by simp⟩

/-- Only an entry signal can raise the number of pending checks, and by one. -/
theorem pending_step {s s' : State} (hs : Inv s) {e : Event} (h : step e s = some s') :
    (pendingChecks s').length ≤ (pendingChecks s).length + if e.isSignal then 1 else 0 := by
  cases e with
  | domContentLoaded =>
    simp only [step, Option.some.injEq] at h
    subst h
    simp [settle, onDOMContentLoaded, pending_setTimeout, Event.isSignal]
  | uiLoaded =>
    simp only [step, Option.some.injEq] at h
    subst h
    simpa [Event.isSignal] using pending_checkAndStart hs
  | advance d =>
    simp only [step, Option.some.injEq] at h
    subst h
    exact Nat.le_add_right _ _
  | setHost h0 =>
    simp only [step, Option.some.injEq] at h
    subst h
    exact Nat.le_add_right _ _
  | fire id =>
    simp only [step] at h
    cases hf : s.timers.find? (fun t => t.id == id) with
    | none => simp [hf] at h
    | some t =>
      obtain ⟨hm, rfl⟩ := find_spec hf
      simp only [hf] at h
      split at h
      · cases hk : t.kind with
        | timeout =>
          simp only [hk, Option.some.injEq] at h
          subst h
          have hki : t.isInterval = false := by simp [Timer.isInterval, hk]
          have h1 := pending_checkAndStart (inv_remove hs hm hki)
          have h2 := pending_remove (s := s) hm hki
          simp only [Event.isSignal, Bool.false_eq_true, if_false, Nat.add_zero]
          omega
        | interval p =>
          simp only [hk, Option.some.injEq] at h
          subst h
          rw [settle_intervalCallback, pending_rearm]
          exact Nat.le_add_right _ _
      · simp at h

theorem pending_exec (evs : List Event) :
    ∀ {s s' : State}, Inv s → exec evs s = some s' →
      (pendingChecks s').length ≤ (pendingChecks s).length + signals evs := by
  induction evs with
  | nil =>
    intro s s' _ he
    simp only [exec, Option.some.injEq] at he
    subst he
    exact Nat.le_add_right _ _
  | cons e es ih =>
    intro s s' hs he
    simp only [exec] at he
    cases hs1 : step e s with
    | none => simp [hs1] at he
    | some s1 =>
      rw [hs1] at he
      have h1 := pending_step hs hs1
      have h2 := ih (inv_step hs hs1) he
      simp only [signals, List.countP_cons] at h2 ⊢
      omega

/-- C5, as the claim states it, fails: with both entry signals delivered while
the target region is absent, two poll checks are pending at once, in either
order of the signals, and after the next three timer firings there are still
two, both due at the same time: two polling loops run side by side. -/
theorem two_concurrent_polling_loops :
    (exec [.uiLoaded, .domContentLoaded] (init hostEmpty)).map pendingChecks =
      some [{ id := 1, kind := .timeout, due := 1000 }, { id := 2, kind := .timeout, due := 2000 }] ∧
    (exec [.domContentLoaded, .uiLoaded] (init hostEmpty)).map pendingChecks =
      some [{ id := 1, kind := .timeout, due := 2000 }, { id := 2, kind := .timeout, due := 1000 }] ∧
    ((exec [.uiLoaded, .domContentLoaded] (init hostEmpty)).bind
        (runFor (fun _ => hostEmpty) 3)).map pendingChecks =
      some [{ id := 4, kind := .timeout, due := 3000 }, { id := 5, kind := .timeout, due := 3000 }] := by
  decide

/-- C5, amended: in every state reached by a run from the initial state, the
pending poll checks are at most as many as the entry signals delivered in that
run (a check that fires and finds nothing is replaced by one re-check, a check
that finds the region by none), so at most two when `DOMContentLoaded` and the
UI-ready callback are delivered once each. -/
theorem pending_checks_bounded (h0 : Host) (evs : List Event) (s : State)
    (hrun : exec evs (init h0) = some s) :
    (pendingChecks s).length ≤ signals evs ∧
    (signals evs ≤ 2 → (pendingChecks s).length ≤ 2) := by
  have h := pending_exec evs (inv_init h0) hrun
  have h0 : (pendingChecks (init h0)).length = 0 := rfl
  constructor
  · omega
  · intro h2
    omega

theorem pending_checks_bounded_witness :
    exec [.uiLoaded, .domContentLoaded, .advance 1000, .fire 1] (init hostEmpty) =
      some twoLoopsState ∧
    (pendingChecks twoLoopsState).length ≤ 2 :=
  ⟨by decide,
    (pending_checks_bounded hostEmpty [.uiLoaded, .domContentLoaded, .advance 1000, .fire 1]
      twoLoopsState (by decide)).2 (by decide)⟩

theorem armed_checkAndStart {s : State} (hr : s.host.root = true) :
    Armed (settle s (checkAndStart s)) ∧ (settle s (checkAndStart s)).host = s.host := by
  cases hb : s.host.tab
  · rw [checkAndStart_absent s (by simp [querySelector, hr, hb])]
    refine ⟨Or.inl ?_, rfl⟩
    simp [settle, pendingChecks, List.filter_append, Timer.isInterval]
  · rw [checkAndStart_present s (by simp [querySelector, hr, hb])]
    refine ⟨Or.inr ?_, ?_⟩
    · simp [settle, startAutoRefresh, setInterval, record]
    · simp only [settle, startAutoRefresh, setInterval, record]
      cases s.refreshInterval with
      | none => rfl
      | some x =>
        simp only
        split <;> rfl

/-- With a root in place, a step keeps the system armed, and an entry signal
arms it. -/
theorem armed_step {s s' : State} {e : Event} (hr : s.host.root = true)
    (hok : e.rootOk = true) (h : step e s = some s') (ha : Armed s ∨ e.isSignal = true) :
    Armed s' ∧ s'.host.root = true := by
  cases e with
  | domContentLoaded =>
    simp only [step, Option.some.injEq] at h
    subst h
    refine ⟨Or.inl ?_, hr⟩
    simp [settle, onDOMContentLoaded, pending_setTimeout]
  | uiLoaded =>
    simp only [step, Option.some.injEq] at h
    subst h
    obtain ⟨h1, h2⟩ := armed_checkAndStart hr
    exact ⟨h1, by rw [onUiLoaded, h2]; exact hr⟩
  | advance d =>
    simp only [step, Option.some.injEq] at h
    subst h
    rcases ha with ha | ha
    · exact ⟨ha, hr⟩
    · simp [Event.isSignal] at ha
  | setHost h0 =>
    simp only [step, Option.some.injEq] at h
    subst h
    rcases ha with ha | ha
    · exact ⟨ha, hok⟩
    · simp [Event.isSignal] at ha
  | fire id =>
    simp only [step] at h
    cases hf : s.timers.find? (fun t => t.id == id) with
    | none => simp [hf] at h
    | some t =>
      simp only [hf] at h
      split at h
      · cases hk : t.kind with
        | timeout =>
          simp only [hk, Option.some.injEq] at h
          subst h
          obtain ⟨h1, h2⟩ := armed_checkAndStart
            (s := { s with timers := s.timers.filter (fun u => u.id != id) }) hr
          exact ⟨h1, by rw [h2]; exact hr⟩
        | interval p =>
          simp only [hk, Option.some.injEq] at h
          subst h
          rw [settle_intervalCallback]
          rcases ha with ha | ha
          · refine ⟨?_, hr⟩
            unfold Armed
            rw [pending_rearm]
            exact ha
          · simp [Event.isSignal] at ha
      · simp at h

theorem host_startAutoRefresh (s : State) : (startAutoRefresh s).host = s.host := by
  simp only [startAutoRefresh, setInterval, record]
  cases s.refreshInterval with
  | none => rfl
  | some x =>
    simp only
    split <;> rfl

theorem host_checkAndStart (s : State) : (settle s (checkAndStart s)).host = s.host := by
  unfold checkAndStart
  cases hq : query .tab_job_tracker s with
  | error e => rfl
  | ok r =>
    obtain ⟨b, s1⟩ := r
    obtain ⟨rfl, -⟩ := log_query hq
    cases b
    · rfl
    · simp only [settle, if_true, host_startAutoRefresh]
      rfl

/-- Only the browser changes the UI tree. -/
theorem root_step {s s' : State} {e : Event} (hr : s.host.root = true)
    (hok : e.rootOk = true) (h : step e s = some s') : s'.host.root = true := by
  cases e with
  | domContentLoaded =>
    simp only [step, Option.some.injEq] at h
    subst h
    exact hr
  | uiLoaded =>
    simp only [step, Option.some.injEq] at h
    subst h
    rw [onUiLoaded, host_checkAndStart]
    exact hr
  | advance d =>
    simp only [step, Option.some.injEq] at h
    subst h
    exact hr
  | setHost h0 =>
    simp only [step, Option.some.injEq] at h
    subst h
    exact hok
  | fire id =>
    simp only [step] at h
    cases hf : s.timers.find? (fun t => t.id == id) with
    | none => simp [hf] at h
    | some t =>
      simp only [hf] at h
      split at h
      · cases hk : t.kind with
        | timeout =>
          simp only [hk, Option.some.injEq] at h
          subst h
          rw [host_checkAndStart]
          exact hr
        | interval p =>
          simp only [hk, Option.some.injEq] at h
          subst h
          rw [settle_intervalCallback]
          exact hr
      · simp at h

theorem armed_exec (evs : List Event) :
    ∀ {s s' : State}, s.host.root = true → (∀ e ∈ evs, e.rootOk = true) →
      exec evs s = some s' → Armed s ∨ 0 < signals evs → Armed s' ∧ s'.host.root = true := by
  induction evs with
  | nil =>
    intro s s' hr _ he ha
    simp only [exec, Option.some.injEq] at he
    subst he
    rcases ha with ha | ha
    · exact ⟨ha, hr⟩
    · simp [signals] at ha
  | cons e es ih =>
    intro s s' hr hok he ha
    simp only [exec] at he
    cases hs1 : step e s with
    | none => simp [hs1] at he
    | some s1 =>
      rw [hs1] at he
      have hoke := hok e (List.mem_cons_self _ _)
      have hokes : ∀ x ∈ es, x.rootOk = true := fun x hx => hok x (List.mem_cons_of_mem _ hx)
      have h2 := root_step hr hoke hs1
      by_cases hsig : e.isSignal = true
      · exact ih h2 hokes he (Or.inl (armed_step hr hoke hs1 (Or.inr hsig)).1)
      · rcases ha with ha | ha
        · exact ih h2 hokes he (Or.inl (armed_step hr hoke hs1 (Or.inl ha)).1)
        · have hs : 0 < signals es := by
            simp only [signals, List.countP_cons, hsig, if_false, Nat.add_zero] at ha ⊢
            exact ha
          exact ih h2 hokes he (Or.inr hs)

/-- In a state of the system a stored handle is the handle of the one live
interval timer. -/
theorem stored_of_ne_none {s : State} (hs : Inv s) (h : s.refreshInterval ≠ none) :
    ∃ t, liveIntervals s = [t] ∧ s.refreshInterval = some t.id := by
  cases hr : s.refreshInterval with
  | none => exact absurd hr h
  | some x =>
    obtain ⟨due, hl, -⟩ := stored_mem hs hr
    exact ⟨_, hl, rfl⟩

theorem live_timers_at_most_one_witness :
    Reachable startedState ∧ 0 < starts startedState ∧
    (liveIntervals startedState).length = 1 :=
  ⟨startedState_reachable, by decide,
    ((live_timers_at_most_one startedState startedState_reachable).2.2 (by decide)).1⟩

theorem sumBy_append (f : Timer → Nat) (l1 l2 : List Timer) :
    sumBy f (l1 ++ l2) = sumBy f l1 + sumBy f l2 := by
  induction l1 with
  | nil => simp [sumBy]
  | cons a l ih => simp [sumBy, ih, Nat.add_assoc]

theorem sumBy_mem_le (f : Timer → Nat) {l : List Timer} {c : Timer} (hc : c ∈ l) :
    f c ≤ sumBy f l := by
  induction l with
  | nil => simp at hc
  | cons a l ih =>
    rcases List.mem_cons.1 hc with rfl | h
    · simp [sumBy]
    · have := ih h
      simp only [sumBy]
      omega

theorem sumBy_filter_le (f : Timer → Nat) (p : Timer → Bool) (l : List Timer) :
    sumBy f (l.filter p) ≤ sumBy f l := by
  induction l with
  | nil => simp [sumBy]
  | cons a l ih =>
    by_cases hp : p a = true
    · simp only [List.filter_cons, hp, if_true, sumBy]
      omega
    · simp only [List.filter_cons, hp, sumBy]
      simp only [Bool.false_eq_true, if_false]
      omega

theorem sumBy_filter_add_le (f : Timer → Nat) (p : Timer → Bool) {l : List Timer} {c : Timer}
    (hc : c ∈ l) (hp : p c = false) : sumBy f (l.filter p) + f c ≤ sumBy f l := by
  induction l with
  | nil => simp at hc
  | cons a l ih =>
    rcases List.mem_cons.1 hc with rfl | h
    · have := sumBy_filter_le f p l
      simp only [List.filter_cons, hp, sumBy]
      simp only [Bool.false_eq_true, if_false]
      omega
    · have := ih h
      by_cases hpa : p a = true
      · simp only [List.filter_cons, hpa, if_true, sumBy]
        omega
      · simp only [List.filter_cons, hpa, sumBy]
        simp only [Bool.false_eq_true, if_false]
        omega

theorem earliest_spec : ∀ l : List Timer, l ≠ [] →
    ∃ t, earliest l = some t ∧ t ∈ l ∧ ∀ u ∈ l, t.due ≤ u.due := by
  intro l
  induction l with
  | nil => intro h; exact absurd rfl h
  | cons a l ih =>
    intro _
    by_cases hl : l = []
    · subst hl
      exact ⟨a, by simp [earliest], by simp, by simp⟩
    · obtain ⟨u, hu, hm, hmin⟩ := ih hl
      by_cases hlt : u.due < a.due
      · refine ⟨u, by simp [earliest, hu, hlt], List.mem_cons_of_mem _ hm, ?_⟩
        intro x hx
        rcases List.mem_cons.1 hx with rfl | hx
        · exact Nat.le_of_lt hlt
        · exact hmin x hx
      · refine ⟨a, by simp [earliest, hu, hlt], List.mem_cons_self _ _, ?_⟩
        intro x hx
        rcases List.mem_cons.1 hx with rfl | hx
        · exact Nat.le_refl _
        · exact Nat.le_trans (Nat.le_of_not_lt hlt) (hmin x hx)

theorem remaining_pos (a x : Nat) : 0 < remaining a x := Nat.succ_pos _

theorem remaining_step {a x y : Nat} (hx : x < a) (hy : x + 1000 ≤ y) :
    remaining a y < remaining a x := by
  unfold remaining
  omega

theorem pollBudget_zero {a : Nat} {s : State} (h : pollBudget a s = 0) : pendingChecks s = [] := by
  unfold pollBudget at h
  cases hp : pendingChecks s with
  | nil => rfl
  | cons c rest =>
    rw [hp] at h
    have := remaining_pos a c.due
    simp only [sumBy] at h
    omega

theorem querySelector_tab {h : Host} (hr : h.root = true) :
    querySelector h .tab_job_tracker = .ok h.tab := by
  simp [querySelector, hr]

/-- The scheduler fires a pending check: the poll budget drops. -/
theorem sched_timeout {a : Nat} {tl : Nat → Host} (hroot : ∀ t, (tl t).root = true)
    (hpres : ∀ t, a ≤ t → (tl t).tab = true) {s : State} (hs : Inv s) {t : Timer}
    (he : earliest s.timers = some t) (hm : t ∈ s.timers) (hk : t.isInterval = false) :
    ∃ s1, runNext tl s = some s1 ∧ Inv s1 ∧ Armed s1 ∧ pollBudget a s1 < pollBudget a s := by
  have hkind : t.kind = .timeout := by
    unfold Timer.isInterval at hk
    cases hck : t.kind with
    | timeout => rfl
    | interval p => simp [hck] at hk
  have hmax : s.now + (t.due - s.now) = max s.now t.due := by
    rcases Nat.le_total s.now t.due with h1 | h1
    · rw [Nat.max_eq_right h1]; omega
    · rw [Nat.max_eq_left h1]; omega
  let sh : State := { s with now := s.now + (t.due - s.now), host := tl (max s.now t.due) }
  have hsh : Inv sh := inv_congr hs rfl rfl rfl rfl
  have hdue : t.due ≤ sh.now := by
    show t.due ≤ s.now + (t.due - s.now)
    omega
  let s1 : State := { sh with timers := sh.timers.filter (fun u => u.id != t.id) }
  have hs1 : Inv s1 := inv_remove hsh hm hk
  have hfire : step (.fire t.id) sh = some (settle s1 (checkAndStart s1)) := by
    have hfind : sh.timers.find? (fun u => u.id == t.id) = some t := find_of_mem hs.nodup hm
    simp only [step, hfind, hdue, if_true, hkind]
  have hrun : runNext tl s = some (settle s1 (checkAndStart s1)) := by
    have h1 : runNext tl s = (step (.fire t.id) sh).bind (exec []) := by
      simp only [runNext, runNextWith, he]
      rfl
    rw [h1, hfire]
    rfl
  have hr1 : s1.host.root = true := hroot _
  have hp1 : pendingChecks s1 = (pendingChecks s).filter (fun u => u.id != t.id) := by
    show List.filter _ (List.filter _ s.timers) = List.filter _ (List.filter _ s.timers)
    simp only [List.filter_filter]
    apply List.filter_congr
    intro u _
    exact Bool.and_comm _ _
  have hsum : pollBudget a s1 + remaining a t.due ≤ pollBudget a s := by
    unfold pollBudget
    rw [hp1]
    exact sumBy_filter_add_le _ _ (mem_pending.2 ⟨hm, hk⟩) (by simp)
  refine ⟨_, hrun, inv_checkAndStart hs1, (armed_checkAndStart hr1).1, ?_⟩
  cases hb : s1.host.tab
  · have hlt : s1.now < a := by
      by_contra hge
      have := hpres (max s.now t.due) (by rw [← hmax]; exact Nat.le_of_not_lt hge)
      have hb' : (tl (max s.now t.due)).tab = false := hb
      rw [this] at hb'
      exact Bool.noConfusion hb'
    rw [checkAndStart_absent s1 (by rw [querySelector_tab hr1, hb])]
    have hpe : pollBudget a (settle s1 (Except.ok { s1 with
        timers := s1.timers ++ [{ id := s1.nextId, kind := .timeout, due := s1.now + 1000 }],
        nextId := s1.nextId + 1,
        log := s1.log ++ [(s1.now, .querySelector .tab_job_tracker false),
          (s1.now, .setTimeout s1.nextId 1000)] })) =
        pollBudget a s1 + remaining a (s1.now + 1000) := by
      simp [pollBudget, settle, pendingChecks, List.filter_append, Timer.isInterval,
        sumBy_append, sumBy]
    rw [hpe]
    have hstep : remaining a (s1.now + 1000) < remaining a t.due :=
      remaining_step (Nat.lt_of_le_of_lt hdue hlt) (Nat.add_le_add_right hdue _)
    omega
  · rw [checkAndStart_present s1 (by rw [querySelector_tab hr1, hb])]
    have hrec : Inv (record (.querySelector .tab_job_tracker true) s1) :=
      inv_congr hs1 rfl rfl rfl
        (by simp [starts, record, List.countP_append, Effect.isSetInterval])
    have hpe : pollBudget a (settle s1 (Except.ok
        (startAutoRefresh (record (.querySelector .tab_job_tracker true) s1)))) =
        pollBudget a s1 := by
      simp only [pollBudget, settle]
      rw [pending_start hrec]
      rfl
    rw [hpe]
    have := remaining_pos a t.due
    omega

/-- The scheduler fires the live interval timer while checks are pending: the
checks are untouched and the tick budget drops. -/
theorem sched_interval (tl : Nat → Host) {s : State} (hs : Inv s) {t : Timer}
    (he : earliest s.timers = some t) (hm : t ∈ s.timers)
    (hmin : ∀ u ∈ s.timers, t.due ≤ u.due) (hk : t.isInterval = true)
    (hp : pendingChecks s ≠ []) :
    ∃ s1, runNext tl s = some s1 ∧ Inv s1 ∧ pendingChecks s1 = pendingChecks s ∧
      s1.refreshInterval = s.refreshInterval ∧ tickBudget s1 < tickBudget s := by
  obtain ⟨hl, -, -⟩ := live_eq hs (mem_live.2 ⟨hm, hk⟩)
  obtain ⟨s1, h1, hi1, -, hl1, -, hr1, hp1, -, -⟩ := tick_spec hs hl (tl (max s.now t.due))
  have hrun : runNext tl s = some s1 := by
    rw [← h1]
    simp only [runNext, runNextWith, he, tickWith, hl]
  refine ⟨s1, hrun, hi1, hp1, hr1, ?_⟩
  obtain ⟨c, rest, hc⟩ := List.exists_cons_of_ne_nil hp
  have hcm : c ∈ pendingChecks s := by rw [hc]; exact List.mem_cons_self _ _
  have h2 : t.due ≤ c.due := hmin c (mem_pending.1 hcm).1
  have h3 : c.due ≤ sumBy Timer.due (pendingChecks s) := sumBy_mem_le Timer.due hcm
  simp only [tickBudget, hl, hl1, hp1]
  have h4 : t.due ≤ max s.now t.due := Nat.le_max_right _ _
  omega

/-- With the region present from time `a` on, the timers fired in due order
bring every polling chain to its end. -/
theorem sched_progress {a : Nat} {tl : Nat → Host} (hroot : ∀ t, (tl t).root = true)
    (hpres : ∀ t, a ≤ t → (tl t).tab = true) (p : Nat) :
    ∀ (m : Nat) {s : State}, Inv s → pollBudget a s ≤ p → tickBudget s ≤ m →
      ∃ n s', runFor tl n s = some s' ∧ pendingChecks s' = [] ∧ Inv s' ∧
        (Armed s → Armed s') := by
  induction p with
  | zero =>
    intro m s hs hp _
    exact ⟨0, s, rfl, pollBudget_zero (Nat.le_zero.1 hp), hs, fun h => h⟩
  | succ p ihp =>
    intro m
    induction m with
    | zero =>
      intro s hs hp hq
      by_cases hpe : pendingChecks s = []
      · exact ⟨0, s, rfl, hpe, hs, fun h => h⟩
      · have hne : s.timers ≠ [] := by
          intro h0
          apply hpe
          simp [pendingChecks, h0]
        obtain ⟨t, he, hm, hmin⟩ := earliest_spec s.timers hne
        cases hk : t.isInterval
        · obtain ⟨s1, hr, hi1, ha1, hlt⟩ := sched_timeout hroot hpres hs he hm hk
          obtain ⟨n, s', hn, hp', hi', ha'⟩ := ihp (tickBudget s1) hi1 (by omega) (Nat.le_refl _)
          exact ⟨n + 1, s', by simp only [runFor, hr, Option.some_bind]; exact hn, hp', hi',
            fun _ => ha' ha1⟩
        · obtain ⟨s1, -, -, -, -, hlt⟩ := sched_interval tl hs he hm hmin hk hpe
          omega
    | succ m ihm =>
      intro s hs hp hq
      by_cases hpe : pendingChecks s = []
      · exact ⟨0, s, rfl, hpe, hs, fun h => h⟩
      · have hne : s.timers ≠ [] := by
          intro h0
          apply hpe
          simp [pendingChecks, h0]
        obtain ⟨t, he, hm, hmin⟩ := earliest_spec s.timers hne
        cases hk : t.isInterval
        · obtain ⟨s1, hr, hi1, ha1, hlt⟩ := sched_timeout hroot hpres hs he hm hk
          obtain ⟨n, s', hn, hp', hi', ha'⟩ := ihp (tickBudget s1) hi1 (by omega) (Nat.le_refl _)
          exact ⟨n + 1, s', by simp only [runFor, hr, Option.some_bind]; exact hn, hp', hi',
            fun _ => ha' ha1⟩
        · obtain ⟨s1, hr, hi1, hp1, hr1, hlt⟩ := sched_interval tl hs he hm hmin hk hpe
          have hb1 : pollBudget a s1 ≤ p + 1 := by
            unfold pollBudget
            rw [hp1]
            exact hp
          obtain ⟨n, s', hn, hp', hi', ha'⟩ := ihm hi1 hb1 (by omega)
          refine ⟨n + 1, s', by simp only [runFor, hr, Option.some_bind]; exact hn, hp', hi', ?_⟩
          intro _
          apply ha'
          left
          rw [hp1]
          exact hpe

/-- C6, amended: dual-entry safety when `gradioApp()` returns a root at all
times.  Take any run from the initial state in which at
least one entry signal is delivered (either one alone, or both in any order
and at any times) and `gradioApp()` always has a root.  Whenever no poll check
is pending, exactly one interval timer is live and its handle is the one
stored in `refreshInterval`; and if from then on the target region is present
from some time `a` on, the timers fired in due order reach such a state after
finitely many firings.  On the clock, with the region present from 2500 ms on,
the UI-ready callback alone, `DOMContentLoaded` alone and both together at
time 0 in either order all end with one live timer, stored, and no pending
check. -/
theorem dual_entry_safety (h0 : Host) (evs : List Event) (s : State)
    (hrun : exec evs (init h0) = some s) (hsig : 0 < signals evs)
    (hroot : h0.root = true) (hok : ∀ e ∈ evs, e.rootOk = true) :
    (pendingChecks s = [] → ∃ t, liveIntervals s = [t] ∧ s.refreshInterval = some t.id) ∧
    (∀ (tl : Nat → Host) (a : Nat), (∀ t, (tl t).root = true) →
      (∀ t, a ≤ t → (tl t).tab = true) →
      ∃ n s', runFor tl n s = some s' ∧ pendingChecks s' = [] ∧
        ∃ t, liveIntervals s' = [t] ∧ s'.refreshInterval = some t.id) ∧
    ((step .uiLoaded (init (regionFrom 2500 true 0))).bind
        (runFor (regionFrom 2500 true) 3)).map endView = some (1, true, 0) ∧
    ((step .domContentLoaded (init (regionFrom 2500 true 0))).bind
        (runFor (regionFrom 2500 true) 2)).map endView = some (1, true, 0) ∧
    ((exec [.uiLoaded, .domContentLoaded] (init (regionFrom 2500 true 0))).bind
        (runFor (regionFrom 2500 true) 5)).map endView = some (1, true, 0) ∧
    ((exec [.domContentLoaded, .uiLoaded] (init (regionFrom 2500 true 0))).bind
        (runFor (regionFrom 2500 true) 5)).map endView = some (1, true, 0) := by
  have hi : Inv s := reachable_inv (reachable_exec evs (Reachable.start h0) hrun)
  have hinit : (init h0).host.root = true := hroot
  obtain ⟨ha, -⟩ := armed_exec evs hinit hok hrun (Or.inr hsig)
  refine ⟨?_, ?_, by decide, by decide, by decide, by decide⟩
  · intro hp
    rcases ha with ha | ha
    · exact absurd hp ha
    · exact stored_of_ne_none hi ha
  · intro tl a htr htp
    obtain ⟨n, s', hn, hp', hi', ha'⟩ :=
      sched_progress htr htp (pollBudget a s) (tickBudget s) hi (Nat.le_refl _) (Nat.le_refl _)
    refine ⟨n, s', hn, hp', ?_⟩
    rcases ha' ha with h1 | h1
    · exact absurd hp' h1
    · exact stored_of_ne_none hi' h1

theorem dual_entry_safety_witness :
    exec [.domContentLoaded, .uiLoaded] (init hostEmpty) = some bothSignalled ∧
    0 < signals [.domContentLoaded, .uiLoaded] ∧ hostEmpty.root = true ∧
    ∃ n s', runFor (regionFrom 2500 true) n bothSignalled = some s' ∧ pendingChecks s' = [] ∧
      ∃ t, liveIntervals s' = [t] ∧ s'.refreshInterval = some t.id :=
  ⟨by decide, by decide, by decide,
    (dual_entry_safety hostEmpty [.domContentLoaded, .uiLoaded] bothSignalled
      (by decide) (by decide) (by decide) (by decide)).2.1 (regionFrom 2500 true) 2500
      (fun _ => rfl) (fun t ht => by simp [regionFrom, ht])⟩

theorem clicks_ticksLog (hosts : List Host) :
    ∀ t, (ticksLog t hosts).countP (fun e => e.2 == Effect.click) =
      hosts.countP (fun h => h.root && h.btn) := by
  induction hosts with
  | nil => intro t; rfl
  | cons h rest ih =>
    intro t
    rw [ticksLog, List.countP_append, ih (t + 5000), clicks_tickLog, List.countP_cons]
    cases h.root <;> cases h.btn <;> simp
    omega

theorem intervalCallback_error (s : State) (hr : s.host.root = false) :
    intervalCallback s = .error .typeError := by
  simp [intervalCallback, query, querySelector, hr]

theorem checkAndStart_error (s : State) (hr : s.host.root = false) :
    checkAndStart s = .error .typeError := by
  simp [checkAndStart, query, querySelector, hr]

/-- C4, as the claim states it, fails: the trigger is active, the control is
absent because the UI tree is gone, and the tick that is due raises a
TypeError instead of being skipped silently. -/
theorem tick_raises_without_root :
    exec [.uiLoaded, .advance 5000, .setHost hostAbsent] (init hostReady) = some rootlessStarted ∧
    liveIntervals rootlessStarted = [{ id := 1, kind := .interval 5000, due := 5000 }] ∧
    rootlessStarted.host.btn = false ∧
    intervalCallback rootlessStarted = .error .typeError :=
  ⟨by decide, by decide, by decide, rfl⟩

/-- C4, amended: once the trigger is active, any sequence of ticks of the live
timer goes through, whatever the UI tree is at each tick.  A tick at which
`gradioApp()` returns a root returns normally, makes exactly one click when
the control is present and none, and no other change, when it is absent; a
tick at which `gradioApp()` is falsy raises a TypeError and clicks nothing.
After every tick the timer is still live under the stored handle and due
again 5000 ms later, and the clicks made are as many as the ticks that found
a root with the control in it. -/
theorem steady_state_tolerance (s : State) (hs : Reachable s) (t : Timer)
    (ht : t ∈ liveIntervals s) (hosts : List Host) :
    (∀ s0 : State, s0.host.root = true →
      intervalCallback s0 = .ok { s0 with log := s0.log ++
        (s0.now, Effect.querySelector .tracker_table_refresh_btn s0.host.btn) ::
          (if s0.host.btn then [(s0.now, Effect.click)] else []) }) ∧
    (∀ s0 : State, s0.host.root = false → intervalCallback s0 = .error .typeError) ∧
    ∃ s', ticksWith hosts s = some s' ∧
      s'.log = s.log ++ ticksLog (max s.now t.due) hosts ∧
      clicks s' = clicks s + hosts.countP (fun h => h.root && h.btn) ∧
      liveIntervals s' = [{ t with due := dueAfter t.due (max s.now t.due) hosts.length }] ∧
      s'.refreshInterval = s.refreshInterval ∧ s.refreshInterval = some t.id ∧
      pendingChecks s' = pendingChecks s := by
  have hi := reachable_inv hs
  obtain ⟨hl, hr, -⟩ := live_eq hi ht
  obtain ⟨s', h1, -, hlog, hlive, hri, hp, -⟩ := ticks_spec hosts hi hl
  refine ⟨intervalCallback_ok, intervalCallback_error, s', h1, hlog, ?_, hlive, hri, hr, hp⟩
  simp only [clicks, hlog, List.countP_append, clicks_ticksLog hosts]

theorem steady_state_tolerance_witness :
    Reachable startedState ∧
    ({ id := 1, kind := .interval 5000, due := 5000 } : Timer) ∈ liveIntervals startedState ∧
    ∃ s', ticksWith [hostReady, hostEmpty, hostAbsent, hostReady] startedState = some s' ∧
      clicks s' = 2 ∧
      liveIntervals s' = [{ id := 1, kind := .interval 5000, due := 25000 }] :=
  ⟨startedState_reachable, by decide,
    by
      obtain ⟨s', h1, -, h3, h4, -⟩ :=
        (steady_state_tolerance startedState startedState_reachable
          { id := 1, kind := .interval 5000, due := 5000 } (by decide)
          [hostReady, hostEmpty, hostAbsent, hostReady]).2.2
      exact ⟨s', h1, by rw [h3]; decide, by rw [h4]; decide⟩⟩

/-- C8, as the claim states it, fails: in a reachable state where the target
region is absent because the UI tree is gone, one call of `checkAndStart`
does neither of the two things: it raises a TypeError, no re-check is pending
afterwards and `startAutoRefresh` has not run again. -/
theorem checkAndStart_neither_without_root :
    exec [.uiLoaded, .advance 5000, .setHost hostAbsent] (init hostReady) = some rootlessStarted ∧
    rootlessStarted.host.tab = false ∧
    checkAndStart rootlessStarted = .error .typeError ∧
    pendingChecks (settle rootlessStarted (checkAndStart rootlessStarted)) = [] ∧
    starts (settle rootlessStarted (checkAndStart rootlessStarted)) = starts rootlessStarted :=
  ⟨by decide, by decide, rfl, by decide, by decide⟩

/-- C8, amended: one call of `checkAndStart` at which `gradioApp()` returns a
root does one of two things.  When the target region is absent, it adds one
pending check of `checkAndStart` due 1000 ms later and changes nothing else:
the stored handle, the live interval timers and the clicks are as before.
When the region is present, it runs `startAutoRefresh` once and schedules no
check.  A call at which `gradioApp()` is falsy raises a TypeError. -/
theorem checkAndStart_frame (s : State) (hs : Reachable s) :
    (s.host.root = true → s.host.tab = false →
      ∃ s', checkAndStart s = .ok s' ∧
        s' = { s with
          timers := s.timers ++ [{ id := s.nextId, kind := .timeout, due := s.now + 1000 }],
          nextId := s.nextId + 1,
          log := s.log ++ [(s.now, .querySelector .tab_job_tracker false),
            (s.now, .setTimeout s.nextId 1000)] } ∧
        pendingChecks s' =
          pendingChecks s ++ [{ id := s.nextId, kind := .timeout, due := s.now + 1000 }] ∧
        s'.refreshInterval = s.refreshInterval ∧ liveIntervals s' = liveIntervals s ∧
        clicks s' = clicks s ∧ starts s' = starts s) ∧
    (s.host.root = true → s.host.tab = true →
      ∃ s', checkAndStart s = .ok s' ∧
        s' = startAutoRefresh (record (.querySelector .tab_job_tracker true) s) ∧
        s'.log = s.log ++ (s.now, .querySelector .tab_job_tracker true) :: startLog s ∧
        starts s' = starts s + 1 ∧
        pendingChecks s' = pendingChecks s ∧
        liveIntervals s' = [{ id := s.nextId, kind := .interval 5000, due := s.now + 5000 }] ∧
        s'.refreshInterval = some s.nextId) ∧
    (s.host.root = false → checkAndStart s = .error .typeError) := by
  refine ⟨?_, ?_, checkAndStart_error s⟩
  · intro hr hb
    have hq : querySelector s.host .tab_job_tracker = .ok false := by
      rw [querySelector_tab hr, hb]
    refine ⟨_, checkAndStart_absent s hq, rfl, ?_, rfl, ?_, ?_, ?_⟩
    · simp [pendingChecks, List.filter_append, Timer.isInterval]
    · simp [liveIntervals, List.filter_append, Timer.isInterval]
    · simp [clicks, List.countP_append]
    · simp [starts, List.countP_append, Effect.isSetInterval]
  · intro hr hb
    have hq : querySelector s.host .tab_job_tracker = .ok true := by
      rw [querySelector_tab hr, hb]
    have hi : Inv (record (.querySelector .tab_job_tracker true) s) :=
      inv_congr (reachable_inv hs) rfl rfl rfl
        (by simp [starts, record, List.countP_append, Effect.isSetInterval])
    refine ⟨_, checkAndStart_present s hq, rfl, ?_, ?_, ?_, ?_, ?_⟩
    · rw [startAutoRefresh_eq hi]
      simp [record, startLog]
    · rw [starts_start hi]
      simp [starts, record, List.countP_append, Effect.isSetInterval]
    · rw [pending_start hi]
      rfl
    · rw [live_start hi]
      rfl
    · rw [startAutoRefresh_eq hi]
      rfl

theorem checkAndStart_frame_witness :
    Reachable (init hostEmpty) ∧ Reachable startedState ∧ Reachable (init hostAbsent) ∧
    (∃ s', checkAndStart (init hostEmpty) = .ok s' ∧
      pendingChecks s' = [{ id := 1, kind := .timeout, due := 1000 }] ∧ liveIntervals s' = []) ∧
    (∃ s', checkAndStart startedState = .ok s' ∧
      pendingChecks s' = [] ∧
      liveIntervals s' = [{ id := 2, kind := .interval 5000, due := 5000 }]) ∧
    checkAndStart (init hostAbsent) = .error .typeError :=
  ⟨Reachable.start hostEmpty, startedState_reachable, Reachable.start hostAbsent,
    by
      obtain ⟨s', h1, -, h3, -, h5, -⟩ :=
        (checkAndStart_frame (init hostEmpty) (Reachable.start hostEmpty)).1 (by decide)
          (by decide)
      exact ⟨s', h1, by rw [h3]; decide, by rw [h5]; decide⟩,
    by
      obtain ⟨s', h1, -, -, -, h5, h6, -⟩ :=
        (checkAndStart_frame startedState startedState_reachable).2.1 (by decide) (by decide)
      exact ⟨s', h1, by rw [h5]; decide, by rw [h6]; decide⟩,
    (checkAndStart_frame (init hostAbsent) (Reachable.start hostAbsent)).2.2 (by decide)⟩

theorem domContentLoaded_init (h : Host) :
    step .domContentLoaded (init h) = some (polling 1 2000 0 h [(0, .setTimeout 1 2000)]) := rfl

/-- C3, as the claim states it, fails: a chain whose first check sees no
target region because the UI tree is not built yet (`gradioApp()` falsy), and
whose second check would find the region, never gets to that second check.
The first check raises, schedules nothing, and the chain is over with no run
of `startAutoRefresh`: for the chain the UI-ready callback starts there is no
timer left to fire, and so for the chain `DOMContentLoaded` arms once its
check at 2000 has fired. -/
theorem poll_chain_dies_without_root :
    hostAbsent.tab = false ∧ hostReady.tab = true ∧
    step .uiLoaded (init hostAbsent) = some (init hostAbsent) ∧
    (step .uiLoaded (init hostAbsent)).bind (runWith [hostReady]) = none ∧
    (step .domContentLoaded (init hostAbsent)).bind (runWith [hostAbsent]) =
      some { refreshInterval := none, timers := [], nextId := 2, now := 2000,
             host := hostAbsent, log := [(0, .setTimeout 1 2000)] } ∧
    (step .domContentLoaded (init hostAbsent)).bind (runWith [hostAbsent, hostReady]) = none := by
  decide

/-- C3, amended: poll convergence when `gradioApp()` returns a root at every
check.  A single chain on a fresh page whose first `k` checks do not find the
target region and whose next check finds it makes exactly `k` failed checks,
1000 ms apart, each followed by exactly one `setTimeout` of a re-check 1000 ms
later, then one run of `startAutoRefresh`, and ends with no pending check and
the interval timer live.  This holds for the chain the UI-ready callback
starts with its call of `checkAndStart` at time 0, and for the chain
`DOMContentLoaded` starts, whose first call of `checkAndStart` is at 2000. -/
theorem poll_convergence (k : Nat) (hosts : Nat → Host)
    (hroot : ∀ i, i ≤ k → (hosts i).root = true)
    (habs : ∀ i, i < k → (hosts i).tab = false) (hpres : (hosts k).tab = true) :
    (∃ s, (step .uiLoaded (init (hosts 0))).bind (runWith ((List.range' 1 k).map hosts)) = some s ∧
      s.log = pollLog 0 1 k ++
        [(1000 * k, .querySelector .tab_job_tracker true), (1000 * k, .setInterval (k + 1) 5000)] ∧
      failedChecks s = k ∧ scheduled s = k ∧ starts s = 1 ∧
      pendingChecks s = [] ∧
      liveIntervals s = [{ id := k + 1, kind := .interval 5000, due := 1000 * k + 5000 }] ∧
      s.refreshInterval = some (k + 1) ∧ s.now = 1000 * k) ∧
    (∀ h0 : Host, ∃ s,
      (step .domContentLoaded (init h0)).bind (runWith ((List.range' 0 (k + 1)).map hosts)) =
        some s ∧
      s.log = (0, .setTimeout 1 2000) :: pollLog 2000 2 k ++
        [(2000 + 1000 * k, .querySelector .tab_job_tracker true),
          (2000 + 1000 * k, .setInterval (k + 2) 5000)] ∧
      failedChecks s = k ∧ scheduled s = k + 1 ∧ starts s = 1 ∧
      pendingChecks s = [] ∧
      liveIntervals s =
        [{ id := k + 2, kind := .interval 5000, due := 2000 + 1000 * k + 5000 }] ∧
      s.refreshInterval = some (k + 2) ∧ s.now = 2000 + 1000 * k) := by
  constructor
  · obtain ⟨c1, c2, c3⟩ := count_pollLog k 0 1
    refine ⟨triggered (k + 1) (1000 * k) (hosts k) (pollLog 0 1 k), ?_, rfl, ?_, ?_, ?_, ?_, ?_,
      rfl, rfl⟩
    · cases k with
      | zero =>
        rw [uiLoaded_present (hosts 0) (hroot 0 (Nat.le_refl _)) hpres]
        rfl
      | succ m =>
        rw [uiLoaded_absent (hosts 0) (hroot 0 (Nat.zero_le _)) (habs 0 (Nat.succ_pos _))]
        have hl : (List.range' 1 (m + 1)).map hosts =
            (List.range' 1 m).map hosts ++ [hosts (m + 1)] := by
          rw [List.range'_concat]
          simp [Nat.add_comm]
        have ha : ∀ h ∈ (List.range' 1 m).map hosts, h.root = true ∧ h.tab = false := by
          intro h hh
          simp only [List.mem_map, List.mem_range'_1] at hh
          obtain ⟨i, hi, rfl⟩ := hh
          exact ⟨hroot i (by omega), habs i (by omega)⟩
        rw [Option.some_bind, hl, poll_run _ 1 1000 0 (hosts 0) (hosts (m + 1)) _ (Nat.zero_le _) ha
          (hroot _ (Nat.le_refl _)) hpres]
        have hlen : ((List.range' 1 m).map hosts).length = m := by simp
        have e1 : 1 + 1 + m = m + 1 + 1 := by omega
        have e2 : 1000 + 1000 * m = 1000 * (m + 1) := by omega
        have e3 : [(0, Effect.querySelector .tab_job_tracker false), (0, Effect.setTimeout 1 1000)] ++
            pollLog 1000 (1 + 1) m = pollLog 0 1 (m + 1) := rfl
        rw [hlen, e1, e2, e3]
    · simp only [failedChecks, triggered, List.countP_append, c1]
      simp
    · simp only [scheduled, triggered, List.countP_append, c2]
      simp [Effect.isSetTimeout]
    · simp only [starts, triggered, List.countP_append, c3]
      simp [Effect.isSetInterval]
    · simp [pendingChecks, triggered, Timer.isInterval]
    · simp [liveIntervals, triggered, Timer.isInterval]
  · intro h0
    obtain ⟨c1, c2, c3⟩ := count_pollLog k 2000 2
    refine ⟨triggered (k + 2) (2000 + 1000 * k) (hosts k)
      ((0, .setTimeout 1 2000) :: pollLog 2000 2 k), ?_, rfl, ?_, ?_, ?_, ?_, ?_, rfl, rfl⟩
    · have hl : (List.range' 0 (k + 1)).map hosts = (List.range' 0 k).map hosts ++ [hosts k] := by
        rw [List.range'_concat]
        simp
      have ha : ∀ h ∈ (List.range' 0 k).map hosts, h.root = true ∧ h.tab = false := by
        intro h hh
        simp only [List.mem_map, List.mem_range'_1] at hh
        obtain ⟨i, hi, rfl⟩ := hh
        exact ⟨hroot i (by omega), habs i (by omega)⟩
      rw [domContentLoaded_init, Option.some_bind, hl,
        poll_run _ 1 2000 0 h0 (hosts k) _ (Nat.zero_le _) ha (hroot _ (Nat.le_refl _)) hpres]
      have hlen : ((List.range' 0 k).map hosts).length = k := by simp
      have e1 : 1 + 1 + k = k + 2 := by omega
      have e3 : [(0, Effect.setTimeout 1 2000)] ++ pollLog 2000 (1 + 1) k =
          (0, Effect.setTimeout 1 2000) :: pollLog 2000 2 k := rfl
      rw [hlen, e1, e3]
    · simp only [failedChecks, triggered, List.countP_append, List.countP_cons, c1]
      simp
    · simp only [scheduled, triggered, List.countP_append, List.countP_cons, c2]
      simp [Effect.isSetTimeout]
    · simp only [starts, triggered, List.countP_append, List.countP_cons, c3]
      simp [Effect.isSetInterval]
    · simp [pendingChecks, triggered, Timer.isInterval]
    · simp [liveIntervals, triggered, Timer.isInterval]

theorem poll_convergence_witness :
    (regionFrom 2 true 2).tab = true ∧
    (∃ s, (step .uiLoaded (init (regionFrom 2 true 0))).bind
        (runWith ((List.range' 1 2).map (regionFrom 2 true))) = some s ∧
      failedChecks s = 2 ∧ scheduled s = 2 ∧ starts s = 1 ∧ pendingChecks s = []) ∧
    (∃ s, (step .domContentLoaded (init hostAbsent)).bind
        (runWith ((List.range' 0 3).map (regionFrom 2 true))) = some s ∧
      failedChecks s = 2 ∧ scheduled s = 3 ∧ starts s = 1 ∧ pendingChecks s = []) :=
  ⟨by decide,
    by
      obtain ⟨s, h1, -, h3, h4, h5, h6, -⟩ :=
        (poll_convergence 2 (regionFrom 2 true) (fun _ _ => rfl)
          (fun i hi => by simp [regionFrom]; omega) (by decide)).1
      exact ⟨s, h1, h3, h4, h5, h6⟩,
    by
      obtain ⟨s, h1, -, h3, h4, h5, h6, -⟩ :=
        (poll_convergence 2 (regionFrom 2 true) (fun _ _ => rfl)
          (fun i hi => by simp [regionFrom]; omega) (by decide)).2 hostAbsent
      exact ⟨s, h1, h3, h4, h5, h6⟩⟩

/-- C9, as the claim states it, fails: take the target region absent before
2500 and present from 2500 on because the UI tree itself is built at 2500.
The first check, at 0, raises and schedules nothing, so there is no check at
1000, 2000 or 3000, no run of `startAutoRefresh` and no tick: no timer is left
to fire. -/
theorem poll_timing_fails_without_root :
    (treeFrom 2500 0).tab = false ∧ (treeFrom 2500 2499).tab = false ∧
    (treeFrom 2500 2500).tab = true ∧ (treeFrom 2500 3000).tab = true ∧
    step .uiLoaded (init (treeFrom 2500 0)) =
      some { refreshInterval := none, timers := [], nextId := 1, now := 0,
             host := hostAbsent, log := [] } ∧
    (step .uiLoaded (init (treeFrom 2500 0))).bind (runFor (treeFrom 2500) 1) = none := by
  decide

/-- C6, as the claim states it, fails: the UI tree is built at 2500, and the
UI-ready callback is delivered then.  `DOMContentLoaded` alone, delivered at
0, has its check at 2000 raise and ends with no interval timer and nothing
pending; with both signals the UI-ready callback starts the trigger and the
end state has one live timer. -/
theorem dual_entry_differs_without_root :
    (exec [.domContentLoaded, .advance 2000, .fire 1, .advance 500, .setHost hostReady]
      (init hostAbsent)).map endView = some (0, true, 0) ∧
    (exec [.domContentLoaded, .advance 2000, .fire 1, .advance 500, .setHost hostReady]
      (init hostAbsent)).map State.timers = some [] ∧
    (exec [.domContentLoaded, .advance 2000, .fire 1, .advance 500, .setHost hostReady,
      .uiLoaded] (init hostAbsent)).map endView = some (1, true, 0) := by
  decide

end TrackerUI
